import Mathlib

/-
Verification development for the golf-database repository.

The definitions below are a shallow embedding of the repository's code:
  * `enhanced_golf_etl.py` (EnhancedGolfETL.load_players, load_courses,
    load_tournaments, load_tournament_results),
  * `scripts/database/fix_duplicate_courses.py` (fix_course_duplicates),
  * `src/api/app.py` (the Flask endpoints /api/players, /api/courses,
    /api/tournaments, /api/tournament-results, /api/search, and the
    embedded JavaScript parseNaturalLanguage classifier).

Database tables are lists of row records with explicit autoincrement
counters; SQLAlchemy lookups (`session.query(..).filter_by(..).first()`)
become `List.find?`; `session.add` appends; pandas `drop_duplicates`
keeps the first occurrence of each projected row.  Nullable SQL columns
and NaN-able CSV cells are `Option` fields.  SQLite stores `Date`
columns as strings, so date columns are `Option String`.
-/

/-- Split a character list at whitespace characters (all pieces, empties
included). -/
def splitWsGo : List Char → List Char → List (List Char)
  | [], acc => [acc.reverse]
  | c :: cs, acc =>
    if c.isWhitespace then acc.reverse :: splitWsGo cs []
    else splitWsGo cs (c :: acc)

/-- Python's `str.split()` with no argument: split on whitespace, dropping
empty pieces. -/
def pySplit (s : String) : List String :=
  ((splitWsGo s.data []).filter (fun cs => !cs.isEmpty)).map String.mk

/-- Python's `' '.join(parts)`. -/
def spaceJoin (parts : List String) : String :=
  String.intercalate " " parts

/-- Does `needle` start `hay`? (helper for substring containment). -/
def startsWithChars (needle : List Char) : List Char → Bool
  | [] => needle.isEmpty
  | c :: cs =>
    match needle with
    | [] => true
    | a :: as => a == c && startsWithChars as cs

/-- Substring containment on character lists. -/
def charsContain (needle : List Char) : List Char → Bool
  | [] => needle.isEmpty
  | c :: cs => startsWithChars needle (c :: cs) || charsContain needle cs

/-- Python's `needle in hay` / JavaScript's `hay.includes(needle)`. -/
def containsSub (needle hay : String) : Bool :=
  charsContain needle.data hay.data

/-- Python's `str.split(sep)` on character lists: cut at each occurrence of
the (non-empty) separator.  The fuel argument, instantiated with the input
length, makes the recursion structural. -/
def splitSepFuel (sep : List Char) : Nat → List Char → List Char →
    List (List Char)
  | _, [], acc => [acc.reverse]
  | 0, l, acc => [acc.reverse ++ l]
  | fuel + 1, c :: cs, acc =>
    if startsWithChars sep (c :: cs) then
      acc.reverse :: splitSepFuel sep fuel (List.drop sep.length (c :: cs)) []
    else splitSepFuel sep fuel cs (c :: acc)

/-- Python's `str.split(sep)` with a non-empty separator string. -/
def pySplitSep (sep s : String) : List String :=
  (splitSepFuel sep.data s.data.length s.data []).map String.mk

/-- pandas `drop_duplicates`: keep the first occurrence of each value. -/
def dropDupsAux [DecidableEq α] (seen : List α) : List α → List α
  | [] => []
  | x :: xs =>
    if x ∈ seen then dropDupsAux seen xs else x :: dropDupsAux (x :: seen) xs

/-- pandas `drop_duplicates` over a whole list. -/
def dropDups [DecidableEq α] (l : List α) : List α :=
  dropDupsAux [] l

/-- SQL `MIN(...)` over a non-empty group of ids (0 on an empty group,
which the callers never produce). -/
def minId : List Nat → Nat
  | [] => 0
  | x :: xs => xs.foldl min x

/-- A row of the `players` table (models/models.py, class Player).  Only the
columns the ETL and API code touch are carried. -/
structure PlayerRow where
  player_id : Nat
  first_name : String
  last_name : String
  nationality : Option String
deriving DecidableEq

/-- A row of the `courses_enhanced` table (enhanced_golf_etl.py, class
CourseEnhanced). -/
structure CourseRow where
  course_id : Nat
  course_name : String
  location : Option String
  total_par : Option Int
deriving DecidableEq

/-- A row of the `tournaments_enhanced` table (enhanced_golf_etl.py, class
TournamentEnhanced). -/
structure TournamentRow where
  tournament_id : Nat
  external_tournament_id : String
  tournament_name : String
  course_id : Option Nat
  tournament_date : Option String
  purse_millions : Option Rat
  season : Option Int
  has_cut : Option Bool
deriving DecidableEq

/-- A row of the `tournament_results` table (enhanced_golf_etl.py, class
TournamentResult). -/
structure ResultRow where
  result_id : Nat
  tournament_id : Nat
  player_id : Nat
  external_player_id : Option String
  total_strokes : Option Int
  par_total : Option Int
  rounds_played : Option Int
  made_cut : Option Bool
  final_position : Option String
  position_numeric : Option Int
  sg_putting : Option Rat
  sg_around_green : Option Rat
  sg_approach : Option Rat
  sg_off_the_tee : Option Rat
  sg_tee_to_green : Option Rat
  sg_total : Option Rat
  dk_points : Option Rat
  fd_points : Option Rat
  sd_points : Option Rat
deriving DecidableEq

/-- The database state: the four tables the claims touch, plus the
autoincrement counters for their integer primary keys. -/
structure Database where
  players : List PlayerRow
  courses : List CourseRow
  tournaments : List TournamentRow
  results : List ResultRow
  nextPlayerId : Nat
  nextCourseId : Nat
  nextTournamentId : Nat
  nextResultId : Nat
deriving DecidableEq

/-- A database with four empty tables. -/
def emptyDb : Database :=
  { players := [], courses := [], tournaments := [], results := [],
    nextPlayerId := 1, nextCourseId := 1, nextTournamentId := 1, nextResultId := 1 }

/-- A row of the tournament-level CSV, after the `str(...)` coercion the code
applies to `tournament id`; NaN cells are `none`. -/
structure TournCsvRow where
  tournamentId : String
  tournamentName : Option String
  player : Option String
  playerId : Option String
  course : Option String
  date : Option String
  purse : Option Rat
  season : Option Int
  noCut : Option Bool
  holePar : Option Int
  strokes : Option Int
  nRounds : Option Int
  madeCut : Option Bool
  finish : Option String
  pos : Option Int
  sgPutt : Option Rat
  sgArg : Option Rat
  sgApp : Option Rat
  sgOtt : Option Rat
  sgT2g : Option Rat
  sgTotal : Option Rat
  totalDKP : Option Rat
  totalFDP : Option Rat
  totalSDP : Option Rat
deriving DecidableEq

/-- The key `load_players` SEARCHES with (enhanced_golf_etl.py lines 196-199):
`first_name = player_name.split()[0] if len(player_name.split()) > 1 else
player_name`, `last_name = ' '.join(player_name.split()[1:]) if
len(player_name.split()) > 1 else ""`. -/
def playerLookupKey (name : String) : String × String :=
  if (pySplit name).length > 1 then
    ((pySplit name).headD "", spaceJoin (pySplit name).tail)
  else
    (name, "")

/-- The key `load_players` INSERTS with (enhanced_golf_etl.py lines 203-205):
`name_parts = str(player_name).split()`, `first_name = name_parts[0] if
name_parts else str(player_name)`, `last_name = ' '.join(name_parts[1:]) if
len(name_parts) > 1 else ""`.  The same split is used by
`load_tournament_results` (lines 348-350). -/
def playerInsertKey (name : String) : String × String :=
  let parts := pySplit name
  (parts.headD name, if parts.length > 1 then spaceJoin parts.tail else "")

/-- `session.query(Player).filter_by(first_name=.., last_name=..).first()`. -/
def findPlayerByName (players : List PlayerRow) (key : String × String) :
    Option PlayerRow :=
  players.find? (fun p => decide (p.first_name = key.1 ∧ p.last_name = key.2))

/-- One iteration of the `load_players` loop (enhanced_golf_etl.py
lines 191-214). -/
def loadPlayersStep (db : Database) (name : String) : Database :=
  if name = "" then db
  else if (findPlayerByName db.players (playerLookupKey name)).isSome then db
  else
    let k := playerInsertKey name
    { db with
      players := db.players ++
        [{ player_id := db.nextPlayerId, first_name := k.1,
           last_name := k.2, nationality := some "USA" }],
      nextPlayerId := db.nextPlayerId + 1 }

/-- `EnhancedGolfETL.load_players`: iterate over the set of player names drawn
from the two CSVs (the set is modelled as the list `names`). -/
def loadPlayers (db : Database) (names : List String) : Database :=
  names.foldl loadPlayersStep db

/-- The `(course, hole_par)` projection that `load_courses` deduplicates. -/
structure CourseCsvPair where
  course : Option String
  holePar : Option Int
deriving DecidableEq

/-- The name/location parsing of `load_courses` (enhanced_golf_etl.py
lines 243-249): when the CSV name contains " - " the stored course name is
the part before the first " - " and the location the part after it. -/
def parseCourseNameLoc (full : String) : String × String :=
  if containsSub " - " full then
    let parts := pySplitSep " - " full
    if parts.length > 1 then (parts.headD full, (parts.drop 1).headD "")
    else (full, "")
  else (full, "")

/-- `session.query(CourseEnhanced).filter_by(course_name=..).first()`. -/
def findCourseByName (courses : List CourseRow) (name : String) :
    Option CourseRow :=
  courses.find? (fun c => decide (c.course_name = name))

/-- One iteration of the `load_courses` loop (enhanced_golf_etl.py
lines 232-258).  Note: the lookup uses the FULL CSV course name, while the
inserted row stores the name stripped of its " - location" suffix. -/
def loadCoursesBody (db : Database) (full : String) (par : Option Int) :
    Database :=
  if (findCourseByName db.courses full).isSome then db
  else
    let nl := parseCourseNameLoc full
    { db with
      courses := db.courses ++
        [{ course_id := db.nextCourseId, course_name := nl.1,
           location := some nl.2, total_par := par }],
      nextCourseId := db.nextCourseId + 1 }

/-- One iteration of the `load_courses` loop, dispatching on the NaN check. -/
def loadCoursesStep (db : Database) (row : CourseCsvPair) : Database :=
  match row.course with
  | none => db
  | some full => loadCoursesBody db full row.holePar

/-- The `(course, hole_par)` pairs of the CSV. -/
def courseCsvPairs (df : List TournCsvRow) : List CourseCsvPair :=
  df.map (fun r => { course := r.course, holePar := r.holePar })

/-- `EnhancedGolfETL.load_courses`: `df_tournament[['course',
'hole_par']].drop_duplicates()` then the insert-if-absent loop. -/
def loadCourses (db : Database) (df : List TournCsvRow) : Database :=
  (dropDups (courseCsvPairs df)).foldl loadCoursesStep db

/-- The seven-column projection `load_tournaments` deduplicates
(enhanced_golf_etl.py lines 273-275). -/
structure TournUnique where
  tournamentId : String
  tournamentName : Option String
  course : Option String
  date : Option String
  purse : Option Rat
  season : Option Int
  noCut : Option Bool
deriving DecidableEq

/-- Projection of a CSV row onto the columns `load_tournaments` uses. -/
def tournProj (r : TournCsvRow) : TournUnique :=
  { tournamentId := r.tournamentId, tournamentName := r.tournamentName,
    course := r.course, date := r.date, purse := r.purse,
    season := r.season, noCut := r.noCut }

/-- `session.query(TournamentEnhanced).filter_by(external_tournament_id=..)
.first()`. -/
def findTournamentByExtId (ts : List TournamentRow) (ext : String) :
    Option TournamentRow :=
  ts.find? (fun t => decide (t.external_tournament_id = ext))

/-- One iteration of the `load_tournaments` loop (enhanced_golf_etl.py
lines 279-321). -/
def loadTournamentsBody (db : Database) (row : TournUnique) (name : String) :
    Database :=
  if (findTournamentByExtId db.tournaments row.tournamentId).isSome then db
  else
      let course : Option CourseRow :=
        match row.course with
        | none => none
        | some cn =>
          let cn2 := if containsSub " - " cn then (pySplitSep " - " cn).headD cn
                     else cn
          findCourseByName db.courses cn2
      { db with
        tournaments := db.tournaments ++
          [{ tournament_id := db.nextTournamentId,
             external_tournament_id := row.tournamentId,
             tournament_name := name,
             course_id := course.map (fun c => c.course_id),
             tournament_date := row.date,
             purse_millions := row.purse,
             season := row.season,
             has_cut := some (match row.noCut with
                              | some b => !b
                              | none => true) }],
        nextTournamentId := db.nextTournamentId + 1 }

/-- One iteration of the `load_tournaments` loop, dispatching on the NaN
check. -/
def loadTournamentsStep (db : Database) (row : TournUnique) : Database :=
  match row.tournamentName with
  | none => db
  | some name => loadTournamentsBody db row name

/-- `EnhancedGolfETL.load_tournaments`: deduplicate the seven-column
projection, then the insert-if-absent loop keyed on
`external_tournament_id`. -/
def loadTournaments (db : Database) (df : List TournCsvRow) : Database :=
  (dropDups (df.map tournProj)).foldl loadTournamentsStep db

/-- The player found by `load_tournament_results` for a CSV cell: `continue`
on NaN, otherwise look up by the split name. -/
def findPlayerForRow (players : List PlayerRow) :
    Option String → Option PlayerRow
  | none => none
  | some nm => findPlayerByName players (playerInsertKey nm)

/-- `session.query(TournamentResult).filter_by(tournament_id=..,
player_id=..).first()`. -/
def findResultByPair (results : List ResultRow) (tid pid : Nat) :
    Option ResultRow :=
  results.find? (fun res => decide (res.tournament_id = tid ∧ res.player_id = pid))

/-- One iteration of the `load_tournament_results` loop
(enhanced_golf_etl.py lines 337-387). -/
def loadResultsInsert (db : Database) (r : TournCsvRow) (t : TournamentRow)
    (p : PlayerRow) : Database :=
  if (findResultByPair db.results t.tournament_id p.player_id).isSome then db
  else
        { db with
          results := db.results ++
            [{ result_id := db.nextResultId,
               tournament_id := t.tournament_id,
               player_id := p.player_id,
               external_player_id := r.playerId,
               total_strokes := r.strokes,
               par_total := r.holePar,
               rounds_played := r.nRounds,
               made_cut := r.madeCut,
               final_position := r.finish,
               position_numeric := r.pos,
               sg_putting := r.sgPutt,
               sg_around_green := r.sgArg,
               sg_approach := r.sgApp,
               sg_off_the_tee := r.sgOtt,
               sg_tee_to_green := r.sgT2g,
               sg_total := r.sgTotal,
               dk_points := r.totalDKP,
               fd_points := r.totalFDP,
               sd_points := r.totalSDP }],
          nextResultId := db.nextResultId + 1 }

/-- The tournament/player lookups of one `load_tournament_results` iteration
(enhanced_golf_etl.py lines 337-362): insert only when both are found. -/
def loadResultsBody (db : Database) (r : TournCsvRow) (nm : String) :
    Database :=
  match findTournamentByExtId db.tournaments r.tournamentId,
        findPlayerByName db.players (playerInsertKey nm) with
  | some t, some p => loadResultsInsert db r t p
  | _, _ => db

/-- One iteration of the `load_tournament_results` loop, dispatching on the
NaN check on the player name. -/
def loadResultsStep (db : Database) (r : TournCsvRow) : Database :=
  match r.player with
  | none => db
  | some nm => loadResultsBody db r nm

/-- `EnhancedGolfETL.load_tournament_results`: row-by-row over the whole
CSV (no deduplication). -/
def loadTournamentResults (db : Database) (df : List TournCsvRow) : Database :=
  df.foldl loadResultsStep db

/-- The entity-loading phase of `run_enhanced_etl` (lines 560-564):
`load_players` on the combined name set, then `load_courses`, then
`load_tournaments`. -/
def runEntityLoads (db : Database) (names : List String)
    (df : List TournCsvRow) : Database :=
  loadTournaments (loadCourses (loadPlayers db names) df) df

/-- The `(course_name, location)` grouping key of
`fix_duplicate_courses.py` (`GROUP BY course_name, location`). -/
def courseKeyOf (c : CourseRow) : String × Option String :=
  (c.course_name, c.location)

/-- The `course_id`s of the rows of `courses` sharing key `k`
(`GROUP_CONCAT(course_id)` of the group). -/
def groupIds (courses : List CourseRow) (k : String × Option String) :
    List Nat :=
  (courses.filter (fun c => decide (courseKeyOf c = k))).map
    (fun c => c.course_id)

/-- The keys selected by `HAVING COUNT(*) > 1`. -/
def dupKeys (courses : List CourseRow) : List (String × Option String) :=
  (dropDups (courses.map courseKeyOf)).filter
    (fun k => decide (1 < (groupIds courses k).length))

/-- One row of the duplicate-group query of `fix_course_duplicates`
(fix_duplicate_courses.py lines 79-85): the key, `MIN(course_id)` as
`keep_id`, and all ids of the group. -/
structure DupGroup where
  key : String × Option String
  keepId : Nat
  allIds : List Nat
deriving DecidableEq

/-- The result set of the duplicate-group query, computed once before the
fixing loop runs. -/
def duplicateGroups (courses : List CourseRow) : List DupGroup :=
  (dupKeys courses).map
    (fun k => { key := k, keepId := minId (groupIds courses k),
                allIds := groupIds courses k })

/-- `duplicate_ids = [id for id in all_id_list if id != keep_id]`. -/
def DupGroup.dups (g : DupGroup) : List Nat :=
  g.allIds.filter (fun i => decide (i ≠ g.keepId))

/-- The per-row effect of `UPDATE tournaments_enhanced SET course_id = keep
WHERE course_id = dup`. -/
def updT (keep : Nat) (t : TournamentRow) (dup : Nat) : TournamentRow :=
  if t.course_id = some dup then { t with course_id := some keep } else t

/-- `UPDATE tournaments_enhanced SET course_id = keep WHERE course_id = dup`
(fix_duplicate_courses.py lines 101-105). -/
def updateTournamentsCourse (keep dup : Nat) (ts : List TournamentRow) :
    List TournamentRow :=
  ts.map (fun t => updT keep t dup)

/-- One iteration of the fixing loop (fix_duplicate_courses.py lines 90-118):
re-point the tournaments of each duplicate id to `keep_id`, then
`DELETE FROM courses_enhanced WHERE course_id IN (duplicate_ids)`. -/
def applyGroup (db : Database) (g : DupGroup) : Database :=
  { db with
    tournaments := g.dups.foldl
      (fun ts d => updateTournamentsCourse g.keepId d ts) db.tournaments,
    courses := db.courses.filter (fun c => decide (c.course_id ∉ g.dups)) }

/-- `fix_course_duplicates` (fix_duplicate_courses.py lines 67-126): query the
duplicate groups once, process every group, then commit. -/
def fixCourseDuplicates (db : Database) : Database :=
  (duplicateGroups db.courses).foldl applyGroup db

/-- The SQL write statements `fix_course_duplicates` issues, in order. -/
inductive FixStmt
  | updateT (keep dup : Nat)
  | deleteC (dups : List Nat)
deriving DecidableEq

/-- The effect of one write statement on the database. -/
def execFixStmt (db : Database) : FixStmt → Database
  | .updateT keep dup =>
    { db with tournaments := updateTournamentsCourse keep dup db.tournaments }
  | .deleteC dups =>
    { db with courses := db.courses.filter (fun c => decide (c.course_id ∉ dups)) }

/-- The statements issued for one duplicate group: one UPDATE per duplicate
id, then one DELETE of all of the group's duplicate ids. -/
def groupStmts (g : DupGroup) : List FixStmt :=
  g.dups.map (fun d => FixStmt.updateT g.keepId d) ++ [FixStmt.deleteC g.dups]

/-- All write statements of a `fix_course_duplicates` run, computed from the
initial table contents; the single `conn.commit()` comes after all of
them (fix_duplicate_courses.py line 121). -/
def fixStmts (courses : List CourseRow) : List FixStmt :=
  (duplicateGroups courses).flatMap groupStmts

/-- A run of `fix_course_duplicates` in which the `failAt`-th write statement
(0-based), if any, raises an exception.  The `except` handler calls
`conn.rollback()`, so a failure before the commit restores the initial
state; an index past the last write statement means no exception was
raised before the commit, and the fold of all statements is committed. -/
def runFixTransaction (failAt : Option Nat) (db : Database) : Database :=
  match failAt with
  | some n =>
    if n < (fixStmts db.courses).length then db
    else (fixStmts db.courses).foldl execFixStmt db
  | none => (fixStmts db.courses).foldl execFixStmt db

/-- Is `i` the id of a course row that `fix_course_duplicates` deletes: a row
whose key group has other members and whose id is not the group minimum? -/
def deletedId (courses : List CourseRow) (i : Nat) : Bool :=
  courses.any (fun c => decide (c.course_id = i ∧
    i ≠ minId (groupIds courses (courseKeyOf c))))

/-- The id a tournament pointing at course id `i` ends up with: the minimum
id of `i`'s key group when `i` is a deleted duplicate, `i` itself
otherwise. -/
def keptIdFor (courses : List CourseRow) (i : Nat) : Nat :=
  match courses.find? (fun c => decide (c.course_id = i)) with
  | some c => minId (groupIds courses (courseKeyOf c))
  | none => i

/-- The per-tournament effect of `fix_course_duplicates`. -/
def retargetTournament (courses : List CourseRow) (t : TournamentRow) :
    TournamentRow :=
  match t.course_id with
  | none => t
  | some cid =>
    if deletedId courses cid then { t with course_id := some (keptIdFor courses cid) }
    else t

/-- The schema of one column, as declared by `Column(...)` in SQLAlchemy. -/
structure ColumnSpec where
  name : String
  nullable : Bool
  primaryKey : Bool
  unique : Bool
deriving DecidableEq

/-- The `courses_enhanced` schema (enhanced_golf_etl.py lines 47-53): only
`course_id` carries a constraint (primary key); neither `unique=True` nor
any UniqueConstraint is declared for the other columns. -/
def coursesEnhancedSchema : List ColumnSpec :=
  [{ name := "course_id", nullable := false, primaryKey := true, unique := false },
   { name := "course_name", nullable := false, primaryKey := false, unique := false },
   { name := "location", nullable := true, primaryKey := false, unique := false },
   { name := "total_par", nullable := true, primaryKey := false, unique := false }]

/-- The query categories produced by the JavaScript `parseNaturalLanguage`
dispatcher in src/api/app.py (the `type` field of the parsed query). -/
inductive QueryType
  | tournamentWinner
  | playerPerformance
  | bestWorst
  | course
  | tournament
  | search
deriving DecidableEq

/-- The tournament-winner rule of `parseNaturalLanguage` (src/api/app.py
line 380): lowercased query contains 'who won', 'winner' or 'champion'. -/
def winnerCond (lq : String) : Bool :=
  containsSub "who won" lq || containsSub "winner" lq ||
  containsSub "champion" lq

/-- The player-performance rule (line 385): 'show me' together with 'stats',
'performance' or 'results'. -/
def performanceCond (lq : String) : Bool :=
  containsSub "show me" lq &&
  (containsSub "stats" lq || containsSub "performance" lq ||
   containsSub "results" lq)

/-- The best/worst rule (line 390): 'best', 'worst' or 'top'. -/
def bestWorstCond (lq : String) : Bool :=
  containsSub "best" lq || containsSub "worst" lq || containsSub "top" lq

/-- The course rule (line 395): 'course', 'pebble', 'augusta' or 'torrey'. -/
def courseCond (lq : String) : Bool :=
  containsSub "course" lq || containsSub "pebble" lq ||
  containsSub "augusta" lq || containsSub "torrey" lq

/-- The tournament rule (line 400): 'tournament', 'masters' or 'open'. -/
def tournamentCond (lq : String) : Bool :=
  containsSub "tournament" lq || containsSub "masters" lq ||
  containsSub "open" lq

/-- The classifier of `parseNaturalLanguage` (src/api/app.py lines 376-410):
each branch delegates to a sub-parser that returns the fixed `type` shown;
the conditions are substring checks on the lowercased query, tried in
order, with `search` as the fallback. -/
def parseNaturalLanguageType (query : String) : QueryType :=
  let lq := query.toLower
  if winnerCond lq then QueryType.tournamentWinner
  else if performanceCond lq then QueryType.playerPerformance
  else if bestWorstCond lq then QueryType.bestWorst
  else if courseCond lq then QueryType.course
  else if tournamentCond lq then QueryType.tournament
  else QueryType.search

/-- ASCII lower-casing of one character (SQLite's LIKE folds case for the
ASCII range only). -/
def asciiLowerChar (c : Char) : Char :=
  if c.isUpper then Char.ofNat (c.toNat + 32) else c

/-- SQLite `col LIKE '%pat%'`: substring match, case-insensitive for ASCII. -/
def likeContains (pat s : String) : Bool :=
  charsContain (pat.data.map asciiLowerChar) (s.data.map asciiLowerChar)

/-- The request parameters of `/api/tournament-results`
(src/api/app.py lines 1072-1076); `positionOne` is `position == '1'`. -/
structure ResultsParams where
  player : Option String
  tournament : Option String
  year : Option Int
  positionOne : Bool
  limit : Nat
deriving DecidableEq

/-- One row of the `/api/tournament-results` SELECT list. -/
structure ResultsApiRow where
  result_id : Nat
  player_name : String
  tournament_name : String
  tournament_date : Option String
  season : Option Int
  course_name : Option String
  position_numeric : Option Int
  final_position : Option String
  total_strokes : Option Int
  made_cut : Option Bool
  sg_total : Option Rat
  sg_putting : Option Rat
  sg_approach : Option Rat
  sg_off_the_tee : Option Rat
deriving DecidableEq

/-- Build one SELECT-list row from a result row and its joined player,
tournament and (optional) course rows. -/
def mkResultsApiRow (db : Database) (tr : ResultRow) (p : PlayerRow)
    (t : TournamentRow) : ResultsApiRow :=
  { result_id := tr.result_id,
    player_name := p.first_name ++ " " ++ p.last_name,
    tournament_name := t.tournament_name,
    tournament_date := t.tournament_date,
    season := t.season,
    course_name := (t.course_id.bind (fun cid =>
      db.courses.find? (fun c => decide (c.course_id = cid)))).map
      (fun c => c.course_name),
    position_numeric := tr.position_numeric,
    final_position := tr.final_position,
    total_strokes := tr.total_strokes,
    made_cut := tr.made_cut,
    sg_total := tr.sg_total,
    sg_putting := tr.sg_putting,
    sg_approach := tr.sg_approach,
    sg_off_the_tee := tr.sg_off_the_tee }

/-- The optional player/tournament/year filters both branches of the query
append (src/api/app.py lines 1104-1118 and 1157-1165). -/
def rowMatchesFilters (params : ResultsParams) (p : PlayerRow)
    (t : TournamentRow) : Bool :=
  (match params.player with
   | none => true
   | some ps => likeContains ps p.first_name || likeContains ps p.last_name ||
                likeContains ps (p.first_name ++ " " ++ p.last_name)) &&
  (match params.tournament with
   | none => true
   | some ts => likeContains ts t.tournament_name) &&
  (match params.year with
   | none => true
   | some y =>
     (match t.tournament_date with
      | some d => likeContains (toString y) d
      | none => false) || t.season = some y)

/-- `ORDER BY t.tournament_date DESC` with SQLite NULL ordering (NULLs sort
first ascending, hence last descending); ties left in scan order. -/
def dateDescLe (a b : Option String) : Prop :=
  match a, b with
  | none, none => True
  | none, some _ => False
  | some _, none => True
  | some x, some y => y ≤ x

instance : DecidableRel dateDescLe := by
  intro a b
  cases a <;> cases b <;> simp [dateDescLe] <;> infer_instance

/-- The ordering of the plain branch: `ORDER BY t.tournament_date DESC,
tr.total_strokes ASC` (NULL strokes sort first ascending). -/
def plainOrder (a b : ResultsApiRow) : Prop :=
  if a.tournament_date = b.tournament_date then
    match a.total_strokes, b.total_strokes with
    | none, _ => True
    | some _, none => False
    | some x, some y => x ≤ y
  else dateDescLe a.tournament_date b.tournament_date

instance : DecidableRel plainOrder := by
  intro a b
  unfold plainOrder
  by_cases h : a.tournament_date = b.tournament_date <;> simp [h]
  · cases a.total_strokes <;> cases b.total_strokes <;> simp <;> infer_instance
  · infer_instance

/-- The ordering of the winner branch: `ORDER BY tournament_date DESC`. -/
def winnerOrder (a b : ResultsApiRow) : Prop :=
  dateDescLe a.tournament_date b.tournament_date

instance : DecidableRel winnerOrder := fun a b =>
  inferInstanceAs (Decidable (dateDescLe a.tournament_date b.tournament_date))

/-- The plain branch of `/api/tournament-results` (src/api/app.py
lines 1079-1118, 1174-1178): inner joins on players and tournaments, left
join on courses, `WHERE tr.made_cut = 1` plus the optional filters, the
ORDER BY, and the LIMIT. -/
def plainResultsQuery (db : Database) (params : ResultsParams) :
    List ResultsApiRow :=
  ((db.results.filterMap (fun tr =>
      match db.players.find? (fun p => decide (p.player_id = tr.player_id)),
            db.tournaments.find? (fun t => decide (t.tournament_id = tr.tournament_id)) with
      | some p, some t =>
        if tr.made_cut = some true && rowMatchesFilters params p t then
          some (mkResultsApiRow db tr p t)
        else none
      | _, _ => none)).insertionSort plainOrder).take params.limit

/-- The `tournament_winners` CTE (src/api/app.py lines 1124-1131):
`MIN(total_strokes)` over the made-cut, non-NULL-strokes results of a
tournament; `none` when the tournament has no such result. -/
def winningScore (db : Database) (tid : Nat) : Option Int :=
  match (db.results.filterMap (fun tr =>
    if tr.tournament_id = tid && tr.made_cut = some true then tr.total_strokes
    else none)) with
  | [] => none
  | s :: ss => some (ss.foldl min s)

/-- The `winner_details` CTE rows before the window function: made-cut rows
joined to `tournament_winners` on equal strokes, with the optional
filters. -/
def winnerBase (db : Database) (params : ResultsParams) :
    List (ResultRow × PlayerRow × TournamentRow) :=
  db.results.filterMap (fun tr =>
    match db.players.find? (fun p => decide (p.player_id = tr.player_id)),
          db.tournaments.find? (fun t => decide (t.tournament_id = tr.tournament_id)) with
    | some p, some t =>
      if tr.made_cut = some true && tr.total_strokes.isSome &&
         winningScore db tr.tournament_id = tr.total_strokes &&
         rowMatchesFilters params p t then
        some (tr, p, t)
      else none
    | _, _ => none)

/-- `ROW_NUMBER() OVER (PARTITION BY tournament_id ...) = 1`: all partition
members carry the winning stroke count, so the filter keeps the first row
of each tournament in scan order. -/
def firstPerTournament (seen : List Nat) :
    List (ResultRow × PlayerRow × TournamentRow) →
    List (ResultRow × PlayerRow × TournamentRow)
  | [] => []
  | x :: xs =>
    if x.1.tournament_id ∈ seen then firstPerTournament seen xs
    else x :: firstPerTournament (x.1.tournament_id :: seen) xs

/-- The winner branch of `/api/tournament-results` (src/api/app.py
lines 1121-1172): the CTE pipeline, `rank_in_tournament = 1`, the ORDER BY
and the LIMIT. -/
def winnerResultsQuery (db : Database) (params : ResultsParams) :
    List ResultsApiRow :=
  (((firstPerTournament [] (winnerBase db params)).map
      (fun x => mkResultsApiRow db x.1 x.2.1 x.2.2)).insertionSort
      winnerOrder).take params.limit

/-- `/api/tournament-results`: the winner query replaces the plain query
when `position == '1'` (src/api/app.py line 1121). -/
def getTournamentResults (db : Database) (params : ResultsParams) :
    List ResultsApiRow :=
  if params.positionOne then winnerResultsQuery db params
  else plainResultsQuery db params

/-- The `/api/players` response (src/api/app.py lines 898-928):
`query(Player).limit(50)` and the unrestricted `query(Player).count()`. -/
structure PlayersResponse where
  players : List PlayerRow
  count : Nat
  totalPlayers : Nat
deriving DecidableEq

/-- The `/api/players` endpoint. -/
def apiPlayers (db : Database) : PlayersResponse :=
  let shown := db.players.take 50
  { players := shown, count := shown.length, totalPlayers := db.players.length }

/-- The `/api/courses` response (src/api/app.py lines 947-982). -/
structure CoursesResponse where
  courses : List CourseRow
  count : Nat
  totalCourses : Nat
deriving DecidableEq

/-- `ORDER BY course_name` for `/api/courses`. -/
def courseNameLe (a b : CourseRow) : Prop :=
  a.course_name ≤ b.course_name

instance : DecidableRel courseNameLe := fun a b =>
  inferInstanceAs (Decidable (a.course_name ≤ b.course_name))

/-- The `/api/courses` endpoint: `SELECT .. FROM courses_enhanced ORDER BY
course_name LIMIT 50` and the unrestricted `SELECT COUNT(*)`. -/
def apiCourses (db : Database) : CoursesResponse :=
  let shown := (db.courses.insertionSort courseNameLe).take 50
  { courses := shown, count := shown.length, totalCourses := db.courses.length }

/-- One row of the `/api/tournaments` SELECT list (tournament columns plus
the left-joined course name and location). -/
structure TournamentApiRow where
  tournament_id : Nat
  tournament_name : String
  tournament_date : Option String
  purse_millions : Option Rat
  season : Option Int
  has_cut : Option Bool
  course_name : Option String
  course_location : Option String
deriving DecidableEq

/-- The `/api/tournaments` response (src/api/app.py lines 1001-1049). -/
structure TournamentsResponse where
  tournaments : List TournamentApiRow
  count : Nat
  totalTournaments : Nat
deriving DecidableEq

/-- `ORDER BY t.tournament_date DESC` for `/api/tournaments`. -/
def tournamentDateDesc (a b : TournamentApiRow) : Prop :=
  dateDescLe a.tournament_date b.tournament_date

instance : DecidableRel tournamentDateDesc := fun a b =>
  inferInstanceAs (Decidable (dateDescLe a.tournament_date b.tournament_date))

/-- The `/api/tournaments` endpoint: left join on courses, `ORDER BY
t.tournament_date DESC LIMIT 50`, and the unrestricted count. -/
def apiTournaments (db : Database) : TournamentsResponse :=
  let rows := db.tournaments.map (fun t =>
    let c := t.course_id.bind (fun cid =>
      db.courses.find? (fun c => decide (c.course_id = cid)))
    { tournament_id := t.tournament_id,
      tournament_name := t.tournament_name,
      tournament_date := t.tournament_date,
      purse_millions := t.purse_millions,
      season := t.season,
      has_cut := t.has_cut,
      course_name := c.map (fun c => c.course_name),
      course_location := (c.map (fun c => c.location)).join : TournamentApiRow })
  let shown := (rows.insertionSort tournamentDateDesc).take 50
  { tournaments := shown, count := shown.length,
    totalTournaments := db.tournaments.length }

/-- The `/api/search` response (src/api/app.py lines 1244-1313): three
result lists and `total_found`, the sum of their lengths. -/
structure SearchResponse where
  players : List PlayerRow
  tournaments : List TournamentRow
  courses : List CourseRow
  totalFound : Nat
deriving DecidableEq

/-- The `/api/search` endpoint: three LIKE-filtered LIMIT-10 queries, and
`total_found = len(players) + len(tournaments) + len(courses)` over the
returned (capped) lists. -/
def apiSearch (db : Database) (q : String) : SearchResponse :=
  let foundPlayers := (db.players.filter (fun p =>
    likeContains q p.first_name || likeContains q p.last_name)).take 10
  let foundTournaments := (db.tournaments.filter (fun t =>
    likeContains q t.tournament_name)).take 10
  let foundCourses := (db.courses.filter (fun c =>
    likeContains q c.course_name ||
    (match c.location with
     | some loc => likeContains q loc
     | none => false))).take 10
  { players := foundPlayers, tournaments := foundTournaments,
    courses := foundCourses,
    totalFound := foundPlayers.length + foundTournaments.length +
      foundCourses.length }

/-- Every element kept by the window-function filter comes from the input. -/
lemma firstPerTournament_subset
    (l : List (ResultRow × PlayerRow × TournamentRow)) :
    ∀ seen x, x ∈ firstPerTournament seen l → x ∈ l := by
  induction l with
  | nil => intro seen x hx; simp [firstPerTournament] at hx
  | cons y ys ih =>
    intro seen x hx
    unfold firstPerTournament at hx
    split at hx
    · exact List.mem_cons_of_mem y (ih _ x hx)
    · rcases List.mem_cons.1 hx with h1 | h1
      · exact h1 ▸ List.mem_cons_self y ys
      · exact List.mem_cons_of_mem y (ih _ x h1)

/-- Rows surviving the plain branch of `/api/tournament-results` carry
`made_cut = 1`. -/
lemma plainResultsQuery_made_cut (db : Database) (params : ResultsParams)
    (row : ResultsApiRow) (h : row ∈ plainResultsQuery db params) :
    row.made_cut = some true := by
  unfold plainResultsQuery at h
  have h1 := List.take_subset _ _ h
  have h2 := ((List.perm_insertionSort plainOrder _).mem_iff).1 h1
  rw [List.mem_filterMap] at h2
  obtain ⟨tr, -, heq⟩ := h2
  split at heq
  · rename_i p t ep et
    split at heq
    · rename_i hcond
      have hmc : tr.made_cut = some true := by
        simp only [Bool.and_eq_true, decide_eq_true_eq] at hcond
        tauto
      have hrow : mkResultsApiRow db tr p t = row := Option.some_inj.1 heq
      rw [← hrow]
      simpa [mkResultsApiRow] using hmc
    · exact absurd heq (by simp)
  · exact absurd heq (by simp)

/-- Rows surviving the winner branch of `/api/tournament-results` carry
`made_cut = 1`. -/
lemma winnerResultsQuery_made_cut (db : Database) (params : ResultsParams)
    (row : ResultsApiRow) (h : row ∈ winnerResultsQuery db params) :
    row.made_cut = some true := by
  unfold winnerResultsQuery at h
  have h1 := List.take_subset _ _ h
  have h2 := ((List.perm_insertionSort winnerOrder _).mem_iff).1 h1
  rw [List.mem_map] at h2
  obtain ⟨x, hx, hrow⟩ := h2
  have hxb : x ∈ winnerBase db params := firstPerTournament_subset _ [] x hx
  unfold winnerBase at hxb
  rw [List.mem_filterMap] at hxb
  obtain ⟨tr, -, heq⟩ := hxb
  split at heq
  · rename_i p t ep et
    split at heq
    · rename_i hcond
      have hmc : tr.made_cut = some true := by
        simp only [Bool.and_eq_true, decide_eq_true_eq] at hcond
        tauto
      have hxeq : (tr, p, t) = x := Option.some_inj.1 heq
      rw [← hrow, ← hxeq]
      simpa [mkResultsApiRow] using hmc
    · exact absurd heq (by simp)
  · exact absurd heq (by simp)

/-- C8: `/api/tournament-results` never returns a missed-cut result: for
every database state and every combination of the player, tournament, year,
position and limit parameters, every row of the returned results list has
`made_cut` true, because both the plain query and the winner query filter on
`made_cut = 1`. -/
theorem c8_tournament_results_only_made_cut (db : Database)
    (params : ResultsParams) (row : ResultsApiRow)
    (h : row ∈ getTournamentResults db params) :
    row.made_cut = some true := by
  unfold getTournamentResults at h
  by_cases hp : params.positionOne
  · rw [if_pos hp] at h
    exact winnerResultsQuery_made_cut db params row h
  · rw [if_neg hp] at h
    exact plainResultsQuery_made_cut db params row h

/-- A one-player, one-tournament, one-result database for witnesses. -/
def dbW : Database :=
  { emptyDb with
    players := [{ player_id := 1, first_name := "A", last_name := "B",
                  nationality := none }],
    tournaments := [{ tournament_id := 1, external_tournament_id := "1",
                      tournament_name := "T", course_id := none,
                      tournament_date := none, purse_millions := none,
                      season := none, has_cut := some true }],
    results := [{ result_id := 1, tournament_id := 1, player_id := 1,
                  external_player_id := none, total_strokes := some 70,
                  par_total := none, rounds_played := none,
                  made_cut := some true, final_position := none,
                  position_numeric := none, sg_putting := none,
                  sg_around_green := none, sg_approach := none,
                  sg_off_the_tee := none, sg_tee_to_green := none,
                  sg_total := none, dk_points := none, fd_points := none,
                  sd_points := none }] }

/-- Default request parameters for `/api/tournament-results`. -/
def paramsW : ResultsParams :=
  { player := none, tournament := none, year := none, positionOne := false,
    limit := 50 }

/-- The row `/api/tournament-results` returns on `dbW`. -/
def rowW : ResultsApiRow :=
  { result_id := 1, player_name := "A B", tournament_name := "T",
    tournament_date := none, season := none, course_name := none,
    position_numeric := none, final_position := none,
    total_strokes := some 70, made_cut := some true, sg_total := none,
    sg_putting := none, sg_approach := none, sg_off_the_tee := none }

/-- Witness for C8 at a concrete database and request. -/
theorem c8_witness : rowW.made_cut = some true :=
  c8_tournament_results_only_made_cut dbW paramsW rowW (by decide)

/-- C7: the natural-language layer is a fixed ordered sequence of substring
checks: the classifier yields `tournament_winner` exactly when the lowercased
query matches the winner rule; else `player_performance` on the show-me rule;
else `best_worst`; else `course`; else `tournament`; and the fallback
`search` exactly when no rule matches. -/
theorem c7_parse_natural_language_cascade (q : String) :
    (parseNaturalLanguageType q = QueryType.tournamentWinner ↔
      winnerCond q.toLower = true) ∧
    (parseNaturalLanguageType q = QueryType.playerPerformance ↔
      winnerCond q.toLower = false ∧ performanceCond q.toLower = true) ∧
    (parseNaturalLanguageType q = QueryType.bestWorst ↔
      winnerCond q.toLower = false ∧ performanceCond q.toLower = false ∧
      bestWorstCond q.toLower = true) ∧
    (parseNaturalLanguageType q = QueryType.course ↔
      winnerCond q.toLower = false ∧ performanceCond q.toLower = false ∧
      bestWorstCond q.toLower = false ∧ courseCond q.toLower = true) ∧
    (parseNaturalLanguageType q = QueryType.tournament ↔
      winnerCond q.toLower = false ∧ performanceCond q.toLower = false ∧
      bestWorstCond q.toLower = false ∧ courseCond q.toLower = false ∧
      tournamentCond q.toLower = true) ∧
    (parseNaturalLanguageType q = QueryType.search ↔
      winnerCond q.toLower = false ∧ performanceCond q.toLower = false ∧
      bestWorstCond q.toLower = false ∧ courseCond q.toLower = false ∧
      tournamentCond q.toLower = false) := by
  cases hw : winnerCond q.toLower <;>
    cases hp : performanceCond q.toLower <;>
      cases hb : bestWorstCond q.toLower <;>
        cases hc : courseCond q.toLower <;>
          cases ht : tournamentCond q.toLower <;>
            simp [parseNaturalLanguageType, hw, hp, hb, hc, ht]

/-- C10 (amended): the list endpoints cap their responses regardless of table
size — `/api/players`, `/api/courses` and `/api/tournaments` return at most
50 records and report the unrestricted row count of their table, and
`/api/search` returns at most 10 players, 10 tournaments and 10 courses;
the search response, however, reports `total_found`, the number of records
actually returned (the sum of the three capped list lengths), not an
unrestricted table count. -/
theorem c10_endpoint_caps (db : Database) (q : String) :
    (apiPlayers db).players.length ≤ 50 ∧
    (apiPlayers db).totalPlayers = db.players.length ∧
    (apiCourses db).courses.length ≤ 50 ∧
    (apiCourses db).totalCourses = db.courses.length ∧
    (apiTournaments db).tournaments.length ≤ 50 ∧
    (apiTournaments db).totalTournaments = db.tournaments.length ∧
    (apiSearch db q).players.length ≤ 10 ∧
    (apiSearch db q).tournaments.length ≤ 10 ∧
    (apiSearch db q).courses.length ≤ 10 ∧
    (apiSearch db q).totalFound =
      (apiSearch db q).players.length + (apiSearch db q).tournaments.length +
      (apiSearch db q).courses.length := by
  refine ⟨?_, rfl, ?_, rfl, ?_, rfl, ?_, ?_, ?_, rfl⟩ <;>
    simp [apiPlayers, apiCourses, apiTournaments, apiSearch,
      List.length_take]

/-- Eleven players whose names all match the search pattern "a". -/
def db11 : Database :=
  { emptyDb with
    players := (List.range 11).map (fun i =>
      { player_id := i + 1, first_name := "a", last_name := "",
        nationality := none }) }

/-- C10 counterexample: on a table of 11 matching players, `/api/search`
returns 10 of them and reports `total_found = 10`; no field of the search
response carries the unrestricted table count 11, so the claim that every
response reports the unrestricted total row count of the corresponding
table fails at this input. -/
theorem c10_counterexample :
    (apiSearch db11 "a").totalFound = 10 ∧ db11.players.length = 11 ∧
    (apiSearch db11 "a").totalFound ≠ db11.players.length := by
  refine ⟨?_, ?_, ?_⟩ <;> decide

/-- Membership in `dropDupsAux`: the kept values are those of the input that
are not among the already-seen ones. -/
lemma mem_dropDupsAux [DecidableEq α] (l : List α) :
    ∀ (seen : List α) (x : α), x ∈ dropDupsAux seen l ↔ x ∈ l ∧ x ∉ seen := by
  induction l with
  | nil => intro seen x; simp [dropDupsAux]
  | cons y ys ih =>
    intro seen x
    by_cases hy : y ∈ seen
    · rw [dropDupsAux, if_pos hy, ih]
      constructor
      · rintro ⟨h1, h2⟩; exact ⟨List.mem_cons_of_mem y h1, h2⟩
      · rintro ⟨h1, h2⟩
        rcases List.mem_cons.1 h1 with h1 | h1
        · exact absurd (h1 ▸ hy) h2
        · exact ⟨h1, h2⟩
    · rw [dropDupsAux, if_neg hy]
      by_cases hxy : x = y
      · subst hxy
        simp [hy]
      · constructor
        · intro h1
          rcases List.mem_cons.1 h1 with h1 | h1
          · exact absurd h1 hxy
          · have := (ih (y :: seen) x).1 h1
            exact ⟨List.mem_cons_of_mem y this.1,
              fun hc => this.2 (List.mem_cons_of_mem y hc)⟩
        · rintro ⟨h1, h2⟩
          rcases List.mem_cons.1 h1 with h1 | h1
          · exact absurd h1 hxy
          · exact List.mem_cons_of_mem y ((ih (y :: seen) x).2
              ⟨h1, fun hc => (List.mem_cons.1 hc).elim hxy h2⟩)

/-- `drop_duplicates` keeps exactly the values of the input. -/
lemma mem_dropDups [DecidableEq α] (l : List α) (x : α) :
    x ∈ dropDups l ↔ x ∈ l := by
  simp [dropDups, mem_dropDupsAux]

/-- Some player row with this exact `(first_name, last_name)` key is in the
table. -/
def hasPlayerKey (db : Database) (k : String × String) : Prop :=
  ∃ p ∈ db.players, p.first_name = k.1 ∧ p.last_name = k.2

/-- Some course row with this exact stored `course_name` is in the table. -/
def hasCourseName (db : Database) (n : String) : Prop :=
  ∃ c ∈ db.courses, c.course_name = n

/-- Some tournament row with this exact `external_tournament_id` is in the
table. -/
def hasExtId (db : Database) (e : String) : Prop :=
  ∃ t ∈ db.tournaments, t.external_tournament_id = e

lemma findPlayerByName_isSome (ps : List PlayerRow) (k : String × String) :
    (findPlayerByName ps k).isSome = true ↔
      ∃ p ∈ ps, p.first_name = k.1 ∧ p.last_name = k.2 := by
  simp [findPlayerByName, List.find?_isSome]

lemma findCourseByName_isSome (cs : List CourseRow) (n : String) :
    (findCourseByName cs n).isSome = true ↔ ∃ c ∈ cs, c.course_name = n := by
  simp [findCourseByName, List.find?_isSome]

lemma findTournamentByExtId_isSome (ts : List TournamentRow) (e : String) :
    (findTournamentByExtId ts e).isSome = true ↔
      ∃ t ∈ ts, t.external_tournament_id = e := by
  simp [findTournamentByExtId, List.find?_isSome]

/-- One `load_players` iteration leaves the other tables untouched and only
ever appends to `players`. -/
lemma loadPlayersStep_frame (db : Database) (n : String) :
    (loadPlayersStep db n).courses = db.courses ∧
    (loadPlayersStep db n).tournaments = db.tournaments ∧
    (loadPlayersStep db n).results = db.results ∧
    db.players.Sublist (loadPlayersStep db n).players := by
  unfold loadPlayersStep
  split
  · exact ⟨rfl, rfl, rfl, List.Sublist.refl _⟩
  · split
    · exact ⟨rfl, rfl, rfl, List.Sublist.refl _⟩
    · exact ⟨rfl, rfl, rfl, List.sublist_append_left _ _⟩

/-- `load_players` leaves the other tables untouched and only appends to
`players`. -/
lemma loadPlayers_frame (names : List String) :
    ∀ db : Database,
    (loadPlayers db names).courses = db.courses ∧
    (loadPlayers db names).tournaments = db.tournaments ∧
    (loadPlayers db names).results = db.results ∧
    db.players.Sublist (loadPlayers db names).players := by
  induction names with
  | nil => exact fun db => ⟨rfl, rfl, rfl, List.Sublist.refl _⟩
  | cons m rest ih =>
    intro db
    have hstep := loadPlayersStep_frame db m
    have hih := ih (loadPlayersStep db m)
    refine ⟨?_, ?_, ?_, ?_⟩
    · show (loadPlayers (loadPlayersStep db m) rest).courses = db.courses
      rw [hih.1, hstep.1]
    · show (loadPlayers (loadPlayersStep db m) rest).tournaments = db.tournaments
      rw [hih.2.1, hstep.2.1]
    · show (loadPlayers (loadPlayersStep db m) rest).results = db.results
      rw [hih.2.2.1, hstep.2.2.1]
    · exact hstep.2.2.2.trans hih.2.2.2

/-- One `load_courses` iteration leaves the other tables untouched and only
ever appends to `courses`. -/
lemma loadCoursesStep_frame (db : Database) (pr : CourseCsvPair) :
    (loadCoursesStep db pr).players = db.players ∧
    (loadCoursesStep db pr).tournaments = db.tournaments ∧
    (loadCoursesStep db pr).results = db.results ∧
    db.courses.Sublist (loadCoursesStep db pr).courses := by
  unfold loadCoursesStep
  split
  · exact ⟨rfl, rfl, rfl, List.Sublist.refl _⟩
  · unfold loadCoursesBody
    split
    · exact ⟨rfl, rfl, rfl, List.Sublist.refl _⟩
    · exact ⟨rfl, rfl, rfl, List.sublist_append_left _ _⟩

/-- The `load_courses` loop leaves the other tables untouched and only
appends to `courses`. -/
lemma loadCoursesFold_frame (rows : List CourseCsvPair) :
    ∀ db : Database,
    (rows.foldl loadCoursesStep db).players = db.players ∧
    (rows.foldl loadCoursesStep db).tournaments = db.tournaments ∧
    (rows.foldl loadCoursesStep db).results = db.results ∧
    db.courses.Sublist (rows.foldl loadCoursesStep db).courses := by
  induction rows with
  | nil => exact fun db => ⟨rfl, rfl, rfl, List.Sublist.refl _⟩
  | cons r rest ih =>
    intro db
    have hstep := loadCoursesStep_frame db r
    have hih := ih (loadCoursesStep db r)
    refine ⟨?_, ?_, ?_, ?_⟩
    · show (rest.foldl loadCoursesStep (loadCoursesStep db r)).players = db.players
      rw [hih.1, hstep.1]
    · show (rest.foldl loadCoursesStep (loadCoursesStep db r)).tournaments =
        db.tournaments
      rw [hih.2.1, hstep.2.1]
    · show (rest.foldl loadCoursesStep (loadCoursesStep db r)).results = db.results
      rw [hih.2.2.1, hstep.2.2.1]
    · exact hstep.2.2.2.trans hih.2.2.2

/-- One `load_tournaments` iteration leaves the other tables untouched and
only ever appends to `tournaments`. -/
lemma loadTournamentsStep_frame (db : Database) (row : TournUnique) :
    (loadTournamentsStep db row).players = db.players ∧
    (loadTournamentsStep db row).courses = db.courses ∧
    (loadTournamentsStep db row).results = db.results ∧
    db.tournaments.Sublist (loadTournamentsStep db row).tournaments := by
  unfold loadTournamentsStep
  split
  · exact ⟨rfl, rfl, rfl, List.Sublist.refl _⟩
  · unfold loadTournamentsBody
    split
    · exact ⟨rfl, rfl, rfl, List.Sublist.refl _⟩
    · exact ⟨rfl, rfl, rfl, List.sublist_append_left _ _⟩

/-- The `load_tournaments` loop leaves the other tables untouched and only
appends to `tournaments`. -/
lemma loadTournamentsFold_frame (rows : List TournUnique) :
    ∀ db : Database,
    (rows.foldl loadTournamentsStep db).players = db.players ∧
    (rows.foldl loadTournamentsStep db).courses = db.courses ∧
    (rows.foldl loadTournamentsStep db).results = db.results ∧
    db.tournaments.Sublist (rows.foldl loadTournamentsStep db).tournaments := by
  induction rows with
  | nil => exact fun db => ⟨rfl, rfl, rfl, List.Sublist.refl _⟩
  | cons r rest ih =>
    intro db
    have hstep := loadTournamentsStep_frame db r
    have hih := ih (loadTournamentsStep db r)
    refine ⟨?_, ?_, ?_, ?_⟩
    · show (rest.foldl loadTournamentsStep (loadTournamentsStep db r)).players =
        db.players
      rw [hih.1, hstep.1]
    · show (rest.foldl loadTournamentsStep (loadTournamentsStep db r)).courses =
        db.courses
      rw [hih.2.1, hstep.2.1]
    · show (rest.foldl loadTournamentsStep (loadTournamentsStep db r)).results =
        db.results
      rw [hih.2.2.1, hstep.2.2.1]
    · exact hstep.2.2.2.trans hih.2.2.2

/-- When the CSV course name has no " - ", the stored course name is the
full CSV name. -/
lemma parseCourseNameLoc_noDash (full : String)
    (h : containsSub " - " full = false) :
    parseCourseNameLoc full = (full, "") := by
  unfold parseCourseNameLoc
  rw [if_neg]
  simp [h]

/-- After `load_players` runs, the lookup key of every processed non-empty
name is present, provided lookup key and insert key agree for that name. -/
lemma loadPlayers_establishes (names : List String) :
    ∀ (db : Database) (n : String), n ∈ names → n ≠ "" →
    playerLookupKey n = playerInsertKey n →
    hasPlayerKey (loadPlayers db names) (playerLookupKey n) := by
  induction names with
  | nil => intro db n hn; cases hn
  | cons m rest ih =>
    intro db n hn hne hok
    rcases List.mem_cons.1 hn with h | h
    · subst h
      have hpres : hasPlayerKey (loadPlayersStep db n) (playerLookupKey n) := by
        unfold loadPlayersStep
        rw [if_neg hne]
        by_cases hf : (findPlayerByName db.players (playerLookupKey n)).isSome = true
        · rw [if_pos hf]
          exact (findPlayerByName_isSome _ _).1 hf
        · rw [if_neg hf]
          refine ⟨_, List.mem_append_right _ (List.mem_singleton.2 rfl), ?_, ?_⟩
          · show (playerInsertKey n).1 = (playerLookupKey n).1
            rw [hok]
          · show (playerInsertKey n).2 = (playerLookupKey n).2
            rw [hok]
      obtain ⟨p, hp, hkey⟩ := hpres
      exact ⟨p, (loadPlayers_frame rest (loadPlayersStep db n)).2.2.2.subset hp, hkey⟩
    · exact ih (loadPlayersStep db m) n h hne hok

/-- A `load_players` iteration on an already-present (or empty) name is a
no-op. -/
lemma loadPlayersStep_found (db : Database) (n : String)
    (h : n = "" ∨ hasPlayerKey db (playerLookupKey n)) :
    loadPlayersStep db n = db := by
  unfold loadPlayersStep
  rcases h with h | h
  · rw [if_pos h]
  · by_cases hne : n = ""
    · rw [if_pos hne]
    · rw [if_neg hne]
      have hsome : (findPlayerByName db.players (playerLookupKey n)).isSome = true :=
        (findPlayerByName_isSome _ _).2 h
      rw [if_pos hsome]

/-- `load_players` is a no-op when every processed name is empty or already
present under its lookup key. -/
lemma loadPlayers_id (db : Database) (names : List String)
    (h : ∀ n ∈ names, n = "" ∨ hasPlayerKey db (playerLookupKey n)) :
    loadPlayers db names = db := by
  induction names with
  | nil => rfl
  | cons m rest ih =>
    have hm := loadPlayersStep_found db m (h m (List.mem_cons_self m rest))
    show loadPlayers (loadPlayersStep db m) rest = db
    rw [hm]
    exact ih (fun n hn => h n (List.mem_cons_of_mem m hn))

/-- After the `load_courses` loop runs, every processed CSV course name
without " - " is present as a stored course name. -/
lemma loadCoursesFold_establishes (rows : List CourseCsvPair) :
    ∀ (db : Database) (pr : CourseCsvPair), pr ∈ rows →
    ∀ full : String, pr.course = some full →
    containsSub " - " full = false →
    hasCourseName (rows.foldl loadCoursesStep db) full := by
  induction rows with
  | nil => intro db pr hpr; cases hpr
  | cons r rest ih =>
    intro db pr hpr full hc hd
    rcases List.mem_cons.1 hpr with h | h
    · subst h
      have hpres : hasCourseName (loadCoursesStep db pr) full := by
        have hstep : loadCoursesStep db pr = loadCoursesBody db full pr.holePar := by
          unfold loadCoursesStep
          rw [hc]
        rw [hstep]
        unfold loadCoursesBody
        by_cases hf : (findCourseByName db.courses full).isSome = true
        · rw [if_pos hf]
          exact (findCourseByName_isSome _ _).1 hf
        · rw [if_neg hf]
          refine ⟨_, List.mem_append_right _ (List.mem_singleton.2 rfl), ?_⟩
          show (parseCourseNameLoc full).1 = full
          rw [parseCourseNameLoc_noDash full hd]
      obtain ⟨c, hcm, hcn⟩ := hpres
      exact ⟨c, (loadCoursesFold_frame rest (loadCoursesStep db pr)).2.2.2.subset hcm,
        hcn⟩
    · exact ih (loadCoursesStep db r) pr h full hc hd

/-- A `load_courses` iteration on a NaN or already-present course name is a
no-op. -/
lemma loadCoursesStep_found (db : Database) (pr : CourseCsvPair)
    (h : pr.course = none ∨
      ∃ full, pr.course = some full ∧ hasCourseName db full) :
    loadCoursesStep db pr = db := by
  unfold loadCoursesStep
  rcases h with h | ⟨full, hful, h⟩
  · rw [h]
  · rw [hful]
    show loadCoursesBody db full pr.holePar = db
    unfold loadCoursesBody
    have hsome : (findCourseByName db.courses full).isSome = true :=
      (findCourseByName_isSome _ _).2 h
    rw [if_pos hsome]

/-- The `load_courses` loop is a no-op when every processed course name is
NaN or already present. -/
lemma loadCoursesFold_id (db : Database) (rows : List CourseCsvPair)
    (h : ∀ pr ∈ rows, pr.course = none ∨
      ∃ full, pr.course = some full ∧ hasCourseName db full) :
    rows.foldl loadCoursesStep db = db := by
  induction rows with
  | nil => rfl
  | cons r rest ih =>
    have hr := loadCoursesStep_found db r (h r (List.mem_cons_self r rest))
    show rest.foldl loadCoursesStep (loadCoursesStep db r) = db
    rw [hr]
    exact ih (fun pr hpr => h pr (List.mem_cons_of_mem r hpr))

/-- After the `load_tournaments` loop runs, the external id of every
processed named row is present. -/
lemma loadTournamentsFold_establishes (rows : List TournUnique) :
    ∀ (db : Database) (row : TournUnique), row ∈ rows →
    ∀ nm : String, row.tournamentName = some nm →
    hasExtId (rows.foldl loadTournamentsStep db) row.tournamentId := by
  induction rows with
  | nil => intro db row hrow; cases hrow
  | cons r rest ih =>
    intro db row hrow nm hn
    rcases List.mem_cons.1 hrow with h | h
    · subst h
      have hpres : hasExtId (loadTournamentsStep db row) row.tournamentId := by
        have hstep : loadTournamentsStep db row = loadTournamentsBody db row nm := by
          unfold loadTournamentsStep
          rw [hn]
        rw [hstep]
        unfold loadTournamentsBody
        by_cases hf : (findTournamentByExtId db.tournaments row.tournamentId).isSome =
            true
        · rw [if_pos hf]
          exact (findTournamentByExtId_isSome _ _).1 hf
        · rw [if_neg hf]
          exact ⟨_, List.mem_append_right _ (List.mem_singleton.2 rfl), rfl⟩
      obtain ⟨t, htm, hte⟩ := hpres
      exact ⟨t,
        (loadTournamentsFold_frame rest (loadTournamentsStep db row)).2.2.2.subset htm,
        hte⟩
    · exact ih (loadTournamentsStep db r) row h nm hn

/-- A `load_tournaments` iteration on a NaN name or an already-present
external id is a no-op. -/
lemma loadTournamentsStep_found (db : Database) (row : TournUnique)
    (h : row.tournamentName = none ∨ hasExtId db row.tournamentId) :
    loadTournamentsStep db row = db := by
  unfold loadTournamentsStep
  rcases h with h | h
  · rw [h]
  · cases hn : row.tournamentName with
    | none => rfl
    | some nm =>
      show loadTournamentsBody db row nm = db
      unfold loadTournamentsBody
      have hsome : (findTournamentByExtId db.tournaments row.tournamentId).isSome =
          true := (findTournamentByExtId_isSome _ _).2 h
      rw [if_pos hsome]

/-- The `load_tournaments` loop is a no-op when every processed row has a NaN
name or an already-present external id. -/
lemma loadTournamentsFold_id (db : Database) (rows : List TournUnique)
    (h : ∀ r ∈ rows, r.tournamentName = none ∨ hasExtId db r.tournamentId) :
    rows.foldl loadTournamentsStep db = db := by
  induction rows with
  | nil => rfl
  | cons r rest ih =>
    have hr := loadTournamentsStep_found db r (h r (List.mem_cons_self r rest))
    show rest.foldl loadTournamentsStep (loadTournamentsStep db r) = db
    rw [hr]
    exact ih (fun row hrow => h row (List.mem_cons_of_mem r hrow))

/-- C1 (amended): re-running the entity-loading steps is a no-op — provided
every player name's lookup key agrees with its insert key (which holds
unless a name consists of exactly one word carrying surrounding whitespace)
and no CSV course name contains " - ".  Without the latter condition
`load_courses` re-inserts, because it looks a course up by the full CSV name
but stores the name stripped of its " - location" suffix; `load_tournaments`
needs no condition. -/
theorem c1_amended_entity_load_idempotent (db : Database) (names : List String)
    (df : List TournCsvRow)
    (h1 : ∀ n ∈ names, playerLookupKey n = playerInsertKey n)
    (h2 : ∀ r ∈ df, ∀ cn, r.course = some cn → containsSub " - " cn = false) :
    runEntityLoads (runEntityLoads db names df) names df =
      runEntityLoads db names df := by
  have hA : loadPlayers (runEntityLoads db names df) names =
      runEntityLoads db names df := by
    apply loadPlayers_id
    intro n hn
    by_cases hne : n = ""
    · exact Or.inl hne
    · refine Or.inr ?_
      have hest := loadPlayers_establishes names db n hn hne (h1 n hn)
      have hp : (runEntityLoads db names df).players =
          (loadPlayers db names).players := by
        unfold runEntityLoads loadTournaments loadCourses
        rw [(loadTournamentsFold_frame _ _).1, (loadCoursesFold_frame _ _).1]
      obtain ⟨p, hp1, hp2⟩ := hest
      exact ⟨p, by rw [hp]; exact hp1, hp2⟩
  have hB : loadCourses (runEntityLoads db names df) df =
      runEntityLoads db names df := by
    unfold loadCourses
    apply loadCoursesFold_id
    intro pr hpr
    cases hc : pr.course with
    | none => exact Or.inl rfl
    | some full =>
      refine Or.inr ⟨full, rfl, ?_⟩
      have hprdf : pr ∈ courseCsvPairs df := (mem_dropDups _ _).1 hpr
      obtain ⟨r, hr, hrpr⟩ := List.mem_map.1 hprdf
      have hpc : pr.course = r.course := by rw [← hrpr]
      have hrc : r.course = some full := by rw [← hpc]; exact hc
      have hd := h2 r hr full hrc
      have hest := loadCoursesFold_establishes (dropDups (courseCsvPairs df))
        (loadPlayers db names) pr hpr full hc hd
      have hcrs : (runEntityLoads db names df).courses =
          ((dropDups (courseCsvPairs df)).foldl loadCoursesStep
            (loadPlayers db names)).courses := by
        unfold runEntityLoads loadTournaments
        rw [(loadTournamentsFold_frame _ _).2.1]
        rfl
      obtain ⟨c, hc1, hc2⟩ := hest
      exact ⟨c, by rw [hcrs]; exact hc1, hc2⟩
  have hC : loadTournaments (runEntityLoads db names df) df =
      runEntityLoads db names df := by
    unfold loadTournaments
    apply loadTournamentsFold_id
    intro r hr
    cases hn : r.tournamentName with
    | none => exact Or.inl rfl
    | some nm =>
      refine Or.inr ?_
      exact loadTournamentsFold_establishes (dropDups (df.map tournProj))
        (loadCourses (loadPlayers db names) df) r hr nm hn
  calc runEntityLoads (runEntityLoads db names df) names df
      = loadTournaments (loadCourses
          (loadPlayers (runEntityLoads db names df) names) df) df := rfl
    _ = runEntityLoads db names df := by rw [hA, hB, hC]

/-- A CSV row with every optional cell NaN. -/
def blankCsvRow : TournCsvRow :=
  { tournamentId := "", tournamentName := none, player := none,
    playerId := none, course := none, date := none, purse := none,
    season := none, noCut := none, holePar := none, strokes := none,
    nRounds := none, madeCut := none, finish := none, pos := none,
    sgPutt := none, sgArg := none, sgApp := none, sgOtt := none,
    sgT2g := none, sgTotal := none, totalDKP := none, totalFDP := none,
    totalSDP := none }

/-- A CSV row whose course name carries a " - location" suffix. -/
def rX : TournCsvRow :=
  { blankCsvRow with
    tournamentId := "10", tournamentName := some "TourX",
    course := some "X - A", holePar := some 72 }

/-- C1 counterexample: on a one-row CSV whose course is "X - A", the first
entity-loading run inserts one `courses_enhanced` row (stored as name "X",
location "A"), and the second run, on the same input and starting from the
state the first run left, inserts another one — the lookup by the full CSV
name "X - A" misses the stored name "X".  So the second run does insert a
new row, contradicting the claim. -/
theorem c1_counterexample :
    ((runEntityLoads (runEntityLoads emptyDb [] [rX]) [] [rX]).courses).length = 2 ∧
    ((runEntityLoads emptyDb [] [rX]).courses).length = 1 :=
  ⟨by decide, by decide⟩

/-- A CSV row with a dash-free course name. -/
def rY : TournCsvRow :=
  { blankCsvRow with
    tournamentId := "11", tournamentName := some "TourY",
    course := some "CourseY", holePar := some 70 }

/-- Witness for the amended C1 at a concrete input. -/
theorem c1_witness :
    runEntityLoads (runEntityLoads emptyDb ["Jon Rahm"] [rY]) ["Jon Rahm"] [rY] =
      runEntityLoads emptyDb ["Jon Rahm"] [rY] :=
  c1_amended_entity_load_idempotent emptyDb ["Jon Rahm"] [rY] (by decide)
    (by decide)

/-- The `(first_name, last_name)` keys of the players table. -/
def playersKeyList (ps : List PlayerRow) : List (String × String) :=
  ps.map (fun p => (p.first_name, p.last_name))

/-- One `load_players` iteration preserves at-most-one-row-per-name-key,
provided the processed name's lookup and insert keys agree. -/
lemma loadPlayersStep_keys_nodup (db : Database) (n : String)
    (hok : playerLookupKey n = playerInsertKey n)
    (h : (playersKeyList db.players).Nodup) :
    (playersKeyList (loadPlayersStep db n).players).Nodup := by
  unfold loadPlayersStep
  split
  · exact h
  · split
    · exact h
    · rename_i hne hf
      have hnone : findPlayerByName db.players (playerLookupKey n) = none :=
        Option.not_isSome_iff_eq_none.1 hf
      have habs : ∀ p ∈ db.players,
          ¬(p.first_name = (playerLookupKey n).1 ∧
            p.last_name = (playerLookupKey n).2) := by
        intro p hp
        have := List.find?_eq_none.1 hnone p hp
        simpa using this
      unfold playersKeyList
      rw [List.map_append, List.nodup_append]
      refine ⟨h, List.nodup_singleton _, ?_⟩
      intro k hk1 hk2
      simp only [List.map_cons, List.map_nil, List.mem_singleton] at hk2
      obtain ⟨p, hp, hpk⟩ := List.mem_map.1 hk1
      subst hk2
      rw [Prod.mk.injEq] at hpk
      exact habs p hp ⟨by rw [hok]; exact hpk.1, by rw [hok]; exact hpk.2⟩

/-- `load_players` preserves at-most-one-row-per-name-key, provided every
processed name's lookup and insert keys agree. -/
lemma loadPlayers_keys_nodup (names : List String) :
    ∀ db : Database, (∀ n ∈ names, playerLookupKey n = playerInsertKey n) →
    (playersKeyList db.players).Nodup →
    (playersKeyList (loadPlayers db names).players).Nodup := by
  induction names with
  | nil => exact fun db _ h => h
  | cons m rest ih =>
    intro db h1 h
    exact ih (loadPlayersStep db m)
      (fun n hn => h1 n (List.mem_cons_of_mem m hn))
      (loadPlayersStep_keys_nodup db m (h1 m (List.mem_cons_self m rest)) h)

/-- C5 (amended): the upsert keyed on player name preserves
at-most-one-row-per-`(first_name, last_name)` pair, provided every input
name's lookup key agrees with its insert key — that is, unless a name
consists of exactly one word carrying surrounding whitespace, in which case
the lookup (which uses the raw name) misses the stored trimmed key and a
duplicate row is inserted. -/
theorem c5_amended_upsert_preserves_name_uniqueness (db : Database)
    (names : List String)
    (h1 : ∀ n ∈ names, playerLookupKey n = playerInsertKey n)
    (h2 : (playersKeyList db.players).Nodup) :
    (playersKeyList (loadPlayers db names).players).Nodup :=
  loadPlayers_keys_nodup names db h1 h2

/-- A players table holding exactly one row keyed ("Tiger", ""). -/
def dbTiger : Database :=
  { emptyDb with
    players := [{ player_id := 1, first_name := "Tiger", last_name := "",
                  nationality := none }] }

/-- C5 counterexample: the players table initially holds at most one row per
`(first_name, last_name)` pair, yet loading the single name " Tiger " (one
word, padded with whitespace) inserts a second ("Tiger", "") row: the lookup
key is (" Tiger ", ""), which misses the stored ("Tiger", ""), while the
insert stores ("Tiger", "").  So the claimed invariant is not preserved. -/
theorem c5_counterexample :
    ¬((playersKeyList (loadPlayers dbTiger [" Tiger "]).players).Nodup) := by
  decide

/-- Witness for the amended C5 at a concrete input. -/
theorem c5_witness :
    (playersKeyList (loadPlayers emptyDb ["Jon Rahm", "Tiger Woods"]).players).Nodup :=
  c5_amended_upsert_preserves_name_uniqueness emptyDb ["Jon Rahm", "Tiger Woods"]
    (by decide) (by decide)

/-- One `load_tournaments` iteration preserves at-most-one-row-per-external
id: the insert is guarded by a lookup on exactly the stored key. -/
lemma loadTournamentsStep_ext_nodup (db : Database) (row : TournUnique)
    (h : (db.tournaments.map (fun t => t.external_tournament_id)).Nodup) :
    ((loadTournamentsStep db row).tournaments.map
      (fun t => t.external_tournament_id)).Nodup := by
  unfold loadTournamentsStep
  split
  · exact h
  · unfold loadTournamentsBody
    split
    · exact h
    · rename_i hf
      have hnone : findTournamentByExtId db.tournaments row.tournamentId = none :=
        Option.not_isSome_iff_eq_none.1 hf
      have habs : ∀ t ∈ db.tournaments,
          ¬ t.external_tournament_id = row.tournamentId := by
        intro t ht
        have := List.find?_eq_none.1 hnone t ht
        simpa using this
      rw [List.map_append, List.nodup_append]
      refine ⟨h, List.nodup_singleton _, ?_⟩
      intro e he1 he2
      simp only [List.map_cons, List.map_nil, List.mem_singleton] at he2
      obtain ⟨t, ht, hte⟩ := List.mem_map.1 he1
      subst he2
      exact habs t ht hte

/-- The `load_tournaments` loop preserves at-most-one-row-per-external id. -/
lemma loadTournamentsFold_ext_nodup (rows : List TournUnique) :
    ∀ db : Database,
    (db.tournaments.map (fun t => t.external_tournament_id)).Nodup →
    ((rows.foldl loadTournamentsStep db).tournaments.map
      (fun t => t.external_tournament_id)).Nodup := by
  induction rows with
  | nil => exact fun db h => h
  | cons r rest ih =>
    intro db h
    exact ih (loadTournamentsStep db r) (loadTournamentsStep_ext_nodup db r h)

/-- One `load_courses` iteration preserves at-most-one-row-per-stored-name,
provided the processed CSV course name has no " - " (so the stored name
equals the looked-up name). -/
lemma loadCoursesStep_names_nodup (db : Database) (pr : CourseCsvPair)
    (hcond : ∀ full, pr.course = some full → containsSub " - " full = false)
    (h : (db.courses.map (fun c => c.course_name)).Nodup) :
    ((loadCoursesStep db pr).courses.map (fun c => c.course_name)).Nodup := by
  unfold loadCoursesStep
  split
  · exact h
  · rename_i full heq
    unfold loadCoursesBody
    split
    · exact h
    · rename_i hf
      have hd : containsSub " - " full = false := hcond full heq
      have hnone : findCourseByName db.courses full = none :=
        Option.not_isSome_iff_eq_none.1 hf
      have habs : ∀ c ∈ db.courses, ¬ c.course_name = full := by
        intro c hc
        have := List.find?_eq_none.1 hnone c hc
        simpa using this
      rw [List.map_append, List.nodup_append]
      refine ⟨h, List.nodup_singleton _, ?_⟩
      intro e he1 he2
      simp only [List.map_cons, List.map_nil, List.mem_singleton] at he2
      obtain ⟨c, hc, hcn⟩ := List.mem_map.1 he1
      subst he2
      apply habs c hc
      rw [hcn]
      show (parseCourseNameLoc full).1 = full
      rw [parseCourseNameLoc_noDash full hd]

/-- The `load_courses` loop preserves at-most-one-row-per-stored-name under
the no-" - " condition. -/
lemma loadCoursesFold_names_nodup (rows : List CourseCsvPair) :
    ∀ db : Database,
    (∀ pr ∈ rows, ∀ full, pr.course = some full →
      containsSub " - " full = false) →
    (db.courses.map (fun c => c.course_name)).Nodup →
    ((rows.foldl loadCoursesStep db).courses.map
      (fun c => c.course_name)).Nodup := by
  induction rows with
  | nil => exact fun db _ h => h
  | cons r rest ih =>
    intro db hcond h
    exact ih (loadCoursesStep db r)
      (fun pr hpr => hcond pr (List.mem_cons_of_mem r hpr))
      (loadCoursesStep_names_nodup db r
        (hcond r (List.mem_cons_self r rest)) h)

/-- C2 (amended): the ETL resolves tournaments by EXTERNAL TOURNAMENT ID,
not by name — from an empty database, `load_tournaments` leaves at most one
row per external id (two CSV rows with the same tournament name but
different external ids yield two rows, see the counterexample).  Players
are resolved by their split names (provided lookup and insert keys agree,
i.e. no single-word name carries surrounding whitespace), and courses by
their full CSV name (provided it contains no " - "). -/
theorem c2_amended_entity_resolution (df : List TournCsvRow)
    (names : List String)
    (h1 : ∀ n ∈ names, playerLookupKey n = playerInsertKey n)
    (h2 : ∀ r ∈ df, ∀ cn, r.course = some cn → containsSub " - " cn = false) :
    ((loadTournaments emptyDb df).tournaments.map
      (fun t => t.external_tournament_id)).Nodup ∧
    (playersKeyList (loadPlayers emptyDb names).players).Nodup ∧
    ((loadCourses emptyDb df).courses.map (fun c => c.course_name)).Nodup := by
  refine ⟨?_, ?_, ?_⟩
  · exact loadTournamentsFold_ext_nodup (dropDups (df.map tournProj)) emptyDb
      List.nodup_nil
  · exact loadPlayers_keys_nodup names emptyDb h1 List.nodup_nil
  · apply loadCoursesFold_names_nodup (dropDups (courseCsvPairs df)) emptyDb
    · intro pr hpr full hc
      have hprdf : pr ∈ courseCsvPairs df := (mem_dropDups _ _).1 hpr
      obtain ⟨r, hr, hrpr⟩ := List.mem_map.1 hprdf
      have hpc : pr.course = r.course := by rw [← hrpr]
      exact h2 r hr full (by rw [← hpc]; exact hc)
    · exact List.nodup_nil

/-- A CSV row naming the tournament "Masters" under external id "1". -/
def rM1 : TournCsvRow :=
  { blankCsvRow with
    tournamentId := "1", tournamentName := some "Masters" }

/-- A CSV row naming the tournament "Masters" under external id "2". -/
def rM2 : TournCsvRow :=
  { blankCsvRow with
    tournamentId := "2", tournamentName := some "Masters" }

/-- C2 counterexample: two CSV rows carrying the same tournament name
"Masters" but different external ids produce TWO `tournaments_enhanced`
rows named "Masters" — `load_tournaments` deduplicates by
`external_tournament_id`, not by name, so "at most one row for that
tournament" fails. -/
theorem c2_counterexample :
    ((loadTournaments emptyDb [rM1, rM2]).tournaments.filter
      (fun t => decide (t.tournament_name = "Masters"))).length = 2 := by
  decide

/-- Witness for the amended C2 at a concrete input. -/
theorem c2_witness :
    ((loadTournaments emptyDb [rM1, rM2]).tournaments.map
      (fun t => t.external_tournament_id)).Nodup ∧
    (playersKeyList (loadPlayers emptyDb ["Jon Rahm"]).players).Nodup ∧
    ((loadCourses emptyDb [rM1, rM2]).courses.map
      (fun c => c.course_name)).Nodup :=
  c2_amended_entity_resolution [rM1, rM2] ["Jon Rahm"] (by decide) (by decide)

/-- A `load_tournament_results` iteration on a NaN player name is a no-op. -/
lemma loadResultsStep_none (db : Database) (r : TournCsvRow)
    (h : r.player = none) : loadResultsStep db r = db := by
  unfold loadResultsStep
  rw [h]

/-- A `load_tournament_results` iteration on a present player name runs the
lookup-or-insert body. -/
lemma loadResultsStep_some (db : Database) (r : TournCsvRow) (nm : String)
    (h : r.player = some nm) : loadResultsStep db r = loadResultsBody db r nm := by
  unfold loadResultsStep
  rw [h]

/-- The insertion condition of one `load_tournament_results` iteration: the
CSV row carries a player name, a tournament with the row's external id is
found, a player with the split name is found, and no result for that
`(tournament_id, player_id)` pair is present. -/
def resultInsertCond (db : Database) (r : TournCsvRow) : Prop :=
  ∃ nm, r.player = some nm ∧
  ∃ t, findTournamentByExtId db.tournaments r.tournamentId = some t ∧
  ∃ p, findPlayerByName db.players (playerInsertKey nm) = some p ∧
  findResultByPair db.results t.tournament_id p.player_id = none

/-- One `load_tournament_results` iteration either inserts exactly one row
(when the insertion condition holds) or leaves the database untouched. -/
lemma loadResultsStep_spec (db : Database) (r : TournCsvRow) :
    (resultInsertCond db r ∧
      (loadResultsStep db r).results.length = db.results.length + 1) ∨
    (¬resultInsertCond db r ∧ loadResultsStep db r = db) := by
  cases hp : r.player with
  | none =>
    refine Or.inr ⟨?_, loadResultsStep_none db r hp⟩
    rintro ⟨nm, hnm, -⟩
    rw [hp] at hnm
    exact Option.noConfusion hnm
  | some nm =>
    have hstep := loadResultsStep_some db r nm hp
    rw [hstep]
    cases hft : findTournamentByExtId db.tournaments r.tournamentId with
    | none =>
      refine Or.inr ⟨?_, ?_⟩
      · rintro ⟨nm', hnm', t, ht, -⟩
        rw [hft] at ht
        exact Option.noConfusion ht
      · unfold loadResultsBody
        rw [hft]
    | some t =>
      cases hfp : findPlayerByName db.players (playerInsertKey nm) with
      | none =>
        refine Or.inr ⟨?_, ?_⟩
        · rintro ⟨nm', hnm', t', ht', p, hp', -⟩
          rw [hp, Option.some_inj] at hnm'
          rw [← hnm', hfp] at hp'
          exact Option.noConfusion hp'
        · unfold loadResultsBody
          rw [hft, hfp]
      | some p =>
        have hbody : loadResultsBody db r nm = loadResultsInsert db r t p := by
          unfold loadResultsBody
          rw [hft, hfp]
        rw [hbody]
        by_cases hres :
            (findResultByPair db.results t.tournament_id p.player_id).isSome = true
        · refine Or.inr ⟨?_, ?_⟩
          · rintro ⟨nm', hnm', t', ht', p', hp', hnone⟩
            rw [hp, Option.some_inj] at hnm'
            rw [← hnm'] at hp'
            rw [hft, Option.some_inj] at ht'
            rw [hfp, Option.some_inj] at hp'
            rw [← ht', ← hp'] at hnone
            rw [hnone] at hres
            exact absurd hres (by simp)
          · unfold loadResultsInsert
            rw [if_pos hres]
        · refine Or.inl ⟨⟨nm, hp, t, hft, p, hfp,
            Option.not_isSome_iff_eq_none.1 hres⟩, ?_⟩
          unfold loadResultsInsert
          rw [if_neg hres]
          simp

/-- The `(tournament_id, player_id)` pairs of the results table. -/
def resultPairs (rs : List ResultRow) : List (Nat × Nat) :=
  rs.map (fun res => (res.tournament_id, res.player_id))

/-- One `load_tournament_results` iteration preserves
at-most-one-row-per-`(tournament_id, player_id)` pair. -/
lemma loadResultsStep_pairs_nodup (db : Database) (r : TournCsvRow)
    (h : (resultPairs db.results).Nodup) :
    (resultPairs (loadResultsStep db r).results).Nodup := by
  cases hp : r.player with
  | none => rw [loadResultsStep_none db r hp]; exact h
  | some nm =>
    rw [loadResultsStep_some db r nm hp]
    unfold loadResultsBody
    cases hft : findTournamentByExtId db.tournaments r.tournamentId with
    | none => exact h
    | some t =>
      cases hfp : findPlayerByName db.players (playerInsertKey nm) with
      | none => exact h
      | some p =>
        show (resultPairs (loadResultsInsert db r t p).results).Nodup
        unfold loadResultsInsert
        by_cases hres :
            (findResultByPair db.results t.tournament_id p.player_id).isSome = true
        · rw [if_pos hres]; exact h
        · rw [if_neg hres]
          have hnone : findResultByPair db.results t.tournament_id p.player_id =
              none := Option.not_isSome_iff_eq_none.1 hres
          have habs : ∀ res ∈ db.results,
              ¬(res.tournament_id = t.tournament_id ∧
                res.player_id = p.player_id) := by
            intro res hresm
            have := List.find?_eq_none.1 hnone res hresm
            simpa using this
          unfold resultPairs
          rw [List.map_append, List.nodup_append]
          refine ⟨h, List.nodup_singleton _, ?_⟩
          intro k hk1 hk2
          simp only [List.map_cons, List.map_nil, List.mem_singleton] at hk2
          obtain ⟨res, hresm, hresk⟩ := List.mem_map.1 hk1
          subst hk2
          rw [Prod.mk.injEq] at hresk
          exact habs res hresm ⟨hresk.1, hresk.2⟩

/-- The `load_tournament_results` loop preserves
at-most-one-row-per-`(tournament_id, player_id)` pair. -/
lemma loadTournamentResults_pairs_nodup (df : List TournCsvRow) :
    ∀ db : Database, (resultPairs db.results).Nodup →
    (resultPairs (loadTournamentResults db df).results).Nodup := by
  induction df with
  | nil => exact fun db h => h
  | cons r rest ih =>
    intro db h
    exact ih (loadResultsStep db r) (loadResultsStep_pairs_nodup db r h)

/-- C6: tournament-result loading is row-by-row lookup-or-insert: an
iteration grows the results table (by exactly one row) if and only if the
CSV row's player name is present, a tournament with the row's external id
exists, a player with the row's split name exists, and no result row for
that `(tournament_id, player_id)` pair is already present; otherwise the
database is untouched.  Consequently, when the results table starts without
a duplicated `(tournament_id, player_id)` pair, it never acquires one. -/
theorem c6_results_lookup_or_insert (db : Database) (r : TournCsvRow)
    (df : List TournCsvRow) :
    ((loadResultsStep db r).results.length = db.results.length + 1 ↔
      resultInsertCond db r) ∧
    (¬resultInsertCond db r → loadResultsStep db r = db) ∧
    ((resultPairs db.results).Nodup →
      (resultPairs (loadTournamentResults db df).results).Nodup) := by
  refine ⟨?_, ?_, loadTournamentResults_pairs_nodup df db⟩
  · rcases loadResultsStep_spec db r with ⟨hc, hl⟩ | ⟨hc, he⟩
    · exact ⟨fun _ => hc, fun _ => hl⟩
    · constructor
      · intro hl
        rw [he] at hl
        omega
      · intro hcond
        exact absurd hcond hc
  · rcases loadResultsStep_spec db r with ⟨hc, -⟩ | ⟨-, he⟩
    · exact fun hcond => absurd hc hcond
    · exact fun _ => he

/-- A left fold of `Nat.min` lands on one of its inputs. -/
lemma foldl_min_mem (xs : List Nat) : ∀ x : Nat, xs.foldl min x ∈ x :: xs := by
  induction xs with
  | nil => intro x; exact List.mem_singleton.2 rfl
  | cons y ys ih =>
    intro x
    have h := ih (min x y)
    have hxy : min x y = x ∨ min x y = y := by omega
    show List.foldl min (min x y) ys ∈ x :: y :: ys
    rcases List.mem_cons.1 h with h1 | h1
    · rw [h1]
      rcases hxy with h2 | h2 <;> rw [h2]
      · exact List.mem_cons_self x (y :: ys)
      · exact List.mem_cons_of_mem x (List.mem_cons_self y ys)
    · exact List.mem_cons_of_mem x (List.mem_cons_of_mem y h1)

/-- SQL `MIN` over a non-empty group is one of the group's values. -/
lemma minId_mem (l : List Nat) (h : l ≠ []) : minId l ∈ l := by
  cases l with
  | nil => exact absurd rfl h
  | cons x xs => exact foldl_min_mem xs x

/-- On a group with at most one member, `MIN` is that member. -/
lemma minId_of_short (l : List Nat) (h : l.length ≤ 1) (i : Nat) (hi : i ∈ l) :
    minId l = i := by
  cases l with
  | nil => cases hi
  | cons x xs =>
    cases xs with
    | nil =>
      rw [List.mem_singleton] at hi
      rw [hi]
      rfl
    | cons y ys => simp at h

/-- Unfolding membership in a key group's id list. -/
lemma mem_groupIds (courses : List CourseRow) (k : String × Option String)
    (i : Nat) :
    i ∈ groupIds courses k ↔
      ∃ c ∈ courses, courseKeyOf c = k ∧ c.course_id = i := by
  simp only [groupIds, List.mem_map, List.mem_filter, decide_eq_true_eq]
  constructor
  · rintro ⟨c, ⟨h1, h2⟩, h3⟩
    exact ⟨c, h1, h2, h3⟩
  · rintro ⟨c, h1, h2, h3⟩
    exact ⟨c, ⟨h1, h2⟩, h3⟩

/-- Every course row's id belongs to its own key group. -/
lemma self_mem_groupIds (courses : List CourseRow) (c : CourseRow)
    (h : c ∈ courses) : c.course_id ∈ groupIds courses (courseKeyOf c) :=
  (mem_groupIds courses (courseKeyOf c) c.course_id).2 ⟨c, h, rfl, rfl⟩

/-- With unique course ids, an id belongs to at most one key group. -/
lemma groupIds_key_eq (courses : List CourseRow)
    (hid : (courses.map (fun c => c.course_id)).Nodup)
    (i : Nat) (k k' : String × Option String)
    (h : i ∈ groupIds courses k) (h' : i ∈ groupIds courses k') : k = k' := by
  obtain ⟨c, hc, hk, hi⟩ := (mem_groupIds courses k i).1 h
  obtain ⟨c', hc', hk', hi'⟩ := (mem_groupIds courses k' i).1 h'
  have heq : c = c' :=
    List.inj_on_of_nodup_map hid hc hc' (by rw [hi, hi'])
  rw [← hk, ← hk', heq]

/-- What membership in the duplicate-group query's result set means. -/
lemma duplicateGroups_spec (courses : List CourseRow) (g : DupGroup)
    (hg : g ∈ duplicateGroups courses) :
    g.keepId = minId (groupIds courses g.key) ∧
    g.allIds = groupIds courses g.key ∧
    1 < (groupIds courses g.key).length := by
  unfold duplicateGroups at hg
  obtain ⟨k, hk, hdef⟩ := List.mem_map.1 hg
  subst hdef
  unfold dupKeys at hk
  rw [List.mem_filter] at hk
  exact ⟨rfl, rfl, by simpa using hk.2⟩

/-- Membership in a group's duplicate-id list. -/
lemma mem_dups (g : DupGroup) (d : Nat) :
    d ∈ g.dups ↔ d ∈ g.allIds ∧ d ≠ g.keepId := by
  unfold DupGroup.dups
  rw [List.mem_filter]
  simp

/-- A kept (minimum) id is never in any group's duplicate-id list. -/
lemma keep_not_dup (courses : List CourseRow)
    (hid : (courses.map (fun c => c.course_id)).Nodup)
    (g g' : DupGroup) (hg : g ∈ duplicateGroups courses)
    (hg' : g' ∈ duplicateGroups courses) : g.keepId ∉ g'.dups := by
  obtain ⟨hk, ha, hl⟩ := duplicateGroups_spec courses g hg
  obtain ⟨hk', ha', hl'⟩ := duplicateGroups_spec courses g' hg'
  intro hmem
  obtain ⟨h1, h2⟩ := (mem_dups g' g.keepId).1 hmem
  rw [ha'] at h1
  have hne : groupIds courses g.key ≠ [] := by
    intro hnil
    rw [hnil] at hl
    simp at hl
  have hkm : g.keepId ∈ groupIds courses g.key := by
    rw [hk]
    exact minId_mem _ hne
  have hkeys : g.key = g'.key := groupIds_key_eq courses hid g.keepId _ _ hkm h1
  apply h2
  rw [hk', ← hkeys, ← hk]

/-- Two groups sharing a duplicate id have the same kept id. -/
lemma shared_dup_keep_eq (courses : List CourseRow)
    (hid : (courses.map (fun c => c.course_id)).Nodup)
    (g g' : DupGroup) (hg : g ∈ duplicateGroups courses)
    (hg' : g' ∈ duplicateGroups courses) (d : Nat)
    (hd : d ∈ g.dups) (hd' : d ∈ g'.dups) : g.keepId = g'.keepId := by
  obtain ⟨hk, ha, -⟩ := duplicateGroups_spec courses g hg
  obtain ⟨hk', ha', -⟩ := duplicateGroups_spec courses g' hg'
  have h1 := ((mem_dups g d).1 hd).1
  have h1' := ((mem_dups g' d).1 hd').1
  rw [ha] at h1
  rw [ha'] at h1'
  have hkeys : g.key = g'.key := groupIds_key_eq courses hid d _ _ h1 h1'
  rw [hk, hk', hkeys]

/-- A surviving course row is exactly one whose id is the minimum of its key
group. -/
lemma survives_iff (courses : List CourseRow)
    (hid : (courses.map (fun c => c.course_id)).Nodup)
    (c : CourseRow) (hc : c ∈ courses) :
    (∀ g ∈ duplicateGroups courses, c.course_id ∉ g.dups) ↔
      c.course_id = minId (groupIds courses (courseKeyOf c)) := by
  constructor
  · intro h
    by_contra hne
    have hmem := self_mem_groupIds courses c hc
    have hlen : 1 < (groupIds courses (courseKeyOf c)).length := by
      by_contra hlen
      push_neg at hlen
      exact hne ((minId_of_short _ hlen _ hmem).symm)
    have hkmem : courseKeyOf c ∈ dupKeys courses := by
      unfold dupKeys
      rw [List.mem_filter]
      exact ⟨(mem_dropDups _ _).2 (List.mem_map.2 ⟨c, hc, rfl⟩),
        by simpa using hlen⟩
    have hg : ({
        key := courseKeyOf c,
        keepId := minId (groupIds courses (courseKeyOf c)),
        allIds := groupIds courses (courseKeyOf c) } : DupGroup) ∈
          duplicateGroups courses := by
      unfold duplicateGroups
      exact List.mem_map.2 ⟨courseKeyOf c, hkmem, rfl⟩
    exact h _ hg ((mem_dups _ _).2 ⟨hmem, hne⟩)
  · intro hmin g hg hin
    obtain ⟨hk, ha, -⟩ := duplicateGroups_spec courses g hg
    obtain ⟨h1, h2⟩ := (mem_dups g c.course_id).1 hin
    rw [ha] at h1
    have hkeys : g.key = courseKeyOf c :=
      groupIds_key_eq courses hid c.course_id _ _ h1
        (self_mem_groupIds courses c hc)
    apply h2
    rw [hk, hkeys, ← hmin]

/-- The per-tournament effect of one duplicate group's UPDATE statements. -/
def applyGroupT (g : DupGroup) (t : TournamentRow) : TournamentRow :=
  g.dups.foldl (updT g.keepId) t

/-- The per-tournament effect of the whole fixing loop. -/
def outerT (gs : List DupGroup) (t : TournamentRow) : TournamentRow :=
  gs.foldl (fun t g => applyGroupT g t) t

/-- A fold of per-group course DELETEs is one filter on the conjunction. -/
lemma foldl_filter_all (gs : List DupGroup) :
    ∀ cs : List CourseRow,
    gs.foldl (fun cs g => cs.filter (fun c => decide (c.course_id ∉ g.dups))) cs =
      cs.filter (fun c => gs.all (fun g => decide (c.course_id ∉ g.dups))) := by
  induction gs with
  | nil =>
    intro cs
    show cs = cs.filter (fun c => ([] : List DupGroup).all _)
    rw [show (fun c : CourseRow => ([] : List DupGroup).all
      (fun g => decide (c.course_id ∉ g.dups))) = fun _ => true from rfl]
    exact (List.filter_true cs).symm
  | cons g rest ih =>
    intro cs
    show rest.foldl _ (cs.filter _) = _
    rw [ih, List.filter_filter]
    apply List.filter_congr
    intro c hc
    rw [List.all_cons]
    exact Bool.and_comm _ _

/-- A fold of per-duplicate-id UPDATE statements is one map of the
per-tournament fold. -/
lemma foldl_update_map (keep : Nat) (ds : List Nat) :
    ∀ ts : List TournamentRow,
    ds.foldl (fun ts d => updateTournamentsCourse keep d ts) ts =
      ts.map (fun t => ds.foldl (updT keep) t) := by
  induction ds with
  | nil =>
    intro ts
    rw [List.foldl_nil]
    show ts = ts.map (fun t => t)
    exact ((List.map_id ts).symm)
  | cons d rest ih =>
    intro ts
    show rest.foldl _ (updateTournamentsCourse keep d ts) = _
    rw [ih]
    unfold updateTournamentsCourse
    rw [List.map_map]
    rfl

/-- The fold of per-group tournament updates is one map of `outerT`. -/
lemma foldl_group_update_map (gs : List DupGroup) :
    ∀ ts : List TournamentRow,
    gs.foldl (fun ts g => g.dups.foldl
      (fun ts d => updateTournamentsCourse g.keepId d ts) ts) ts =
      ts.map (outerT gs) := by
  induction gs with
  | nil =>
    intro ts
    rw [List.foldl_nil]
    show ts = ts.map (fun t => t)
    exact ((List.map_id ts).symm)
  | cons g rest ih =>
    intro ts
    show rest.foldl _ (g.dups.foldl _ ts) = _
    rw [foldl_update_map, ih, List.map_map]
    rfl

/-- `fix_course_duplicates` acts independently on the two tables: a filter
fold on courses and an update fold on tournaments. -/
lemma fix_decompose (gs : List DupGroup) :
    ∀ db : Database, gs.foldl applyGroup db =
      { db with
        courses := gs.foldl
          (fun cs g => cs.filter (fun c => decide (c.course_id ∉ g.dups)))
          db.courses,
        tournaments := gs.foldl
          (fun ts g => g.dups.foldl
            (fun ts d => updateTournamentsCourse g.keepId d ts) ts)
          db.tournaments } := by
  induction gs with
  | nil => intro db; rfl
  | cons g rest ih =>
    intro db
    show rest.foldl applyGroup (applyGroup db g) = _
    rw [ih]
    rfl

/-- Writing a tournament's `course_id` with its current value is a no-op. -/
lemma set_course_id_self (t : TournamentRow) (k : Nat)
    (h : t.course_id = some k) : { t with course_id := some k } = t := by
  cases t
  rw [← h]

/-- UPDATE statements whose duplicate id never matches leave a tournament
unchanged. -/
lemma foldl_updT_nomatch (keep : Nat) (t : TournamentRow) :
    ∀ ds : List Nat, (∀ d ∈ ds, t.course_id ≠ some d) →
      ds.foldl (updT keep) t = t := by
  intro ds
  induction ds with
  | nil => intro _; rfl
  | cons d rest ih =>
    intro h
    have h1 : updT keep t d = t := by
      unfold updT
      rw [if_neg (h d (List.mem_cons_self d rest))]
    show rest.foldl (updT keep) (updT keep t d) = t
    rw [h1]
    exact ih (fun e he => h e (List.mem_cons_of_mem d he))

/-- A tournament already pointing at the kept id is a fixed point of the
UPDATE statements. -/
lemma foldl_updT_keep (keep : Nat) (t : TournamentRow)
    (h : t.course_id = some keep) :
    ∀ ds : List Nat, ds.foldl (updT keep) t = t := by
  intro ds
  induction ds with
  | nil => rfl
  | cons d rest ih =>
    have h1 : updT keep t d = t := by
      unfold updT
      split
      · exact set_course_id_self t keep h
      · rfl
    show rest.foldl (updT keep) (updT keep t d) = t
    rw [h1]
    exact ih

/-- A tournament pointing at one of the duplicate ids is re-pointed to the
kept id by that group's UPDATE statements. -/
lemma foldl_updT_hit (keep : Nat) (t : TournamentRow) (d : Nat)
    (h : t.course_id = some d) :
    ∀ ds : List Nat, d ∈ ds →
      ds.foldl (updT keep) t = { t with course_id := some keep } := by
  intro ds
  induction ds with
  | nil => intro hd; cases hd
  | cons e rest ih =>
    intro hd
    by_cases he : t.course_id = some e
    · have h1 : updT keep t e = { t with course_id := some keep } := by
        unfold updT
        rw [if_pos he]
      show rest.foldl (updT keep) (updT keep t e) = _
      rw [h1]
      exact foldl_updT_keep keep _ rfl rest
    · have h1 : updT keep t e = t := by
        unfold updT
        rw [if_neg he]
      show rest.foldl (updT keep) (updT keep t e) = _
      rw [h1]
      have hd' : d ∈ rest := by
        rcases List.mem_cons.1 hd with hde | hd'
        · exact absurd (hde ▸ h) he
        · exact hd'
      exact ih hd'

/-- Groups none of whose duplicate ids match leave a tournament unchanged. -/
lemma outerT_nomatch (gs : List DupGroup) :
    ∀ t : TournamentRow, (∀ g ∈ gs, ∀ d ∈ g.dups, t.course_id ≠ some d) →
      outerT gs t = t := by
  induction gs with
  | nil => intro t _; rfl
  | cons g rest ih =>
    intro t h
    have h1 : applyGroupT g t = t :=
      foldl_updT_nomatch g.keepId t g.dups (h g (List.mem_cons_self g rest))
    show outerT rest (applyGroupT g t) = t
    rw [h1]
    exact ih t (fun g' hg' => h g' (List.mem_cons_of_mem g hg'))

/-- The fixing loop re-points a tournament matching some group's duplicate id
to that group's kept id, provided kept ids are never duplicate ids and
groups sharing a duplicate id agree on the kept id. -/
lemma outerT_hit (gs : List DupGroup)
    (hkeep : ∀ g ∈ gs, ∀ g' ∈ gs, g.keepId ∉ g'.dups)
    (hsame : ∀ g ∈ gs, ∀ g' ∈ gs, ∀ d, d ∈ g.dups → d ∈ g'.dups →
      g.keepId = g'.keepId) :
    ∀ (t : TournamentRow) (cid : Nat) (g : DupGroup), g ∈ gs →
      t.course_id = some cid → cid ∈ g.dups →
      outerT gs t = { t with course_id := some g.keepId } := by
  induction gs with
  | nil => intro t cid g hg; cases hg
  | cons g0 rest ih =>
    intro t cid g hg hcid hdg
    by_cases h0 : cid ∈ g0.dups
    · have h1 : applyGroupT g0 t = { t with course_id := some g0.keepId } :=
        foldl_updT_hit g0.keepId t cid hcid g0.dups h0
      show outerT rest (applyGroupT g0 t) = _
      rw [h1]
      have h2 : outerT rest { t with course_id := some g0.keepId } =
          { t with course_id := some g0.keepId } := by
        apply outerT_nomatch
        intro g' hg' d hd heq
        simp only [Option.some_inj] at heq
        exact hkeep g0 (List.mem_cons_self g0 rest) g'
          (List.mem_cons_of_mem g0 hg') (heq ▸ hd)
      rw [h2]
      have h3 : g0.keepId = g.keepId :=
        hsame g0 (List.mem_cons_self g0 rest) g hg cid h0 hdg
      rw [h3]
    · have h1 : applyGroupT g0 t = t := by
        apply foldl_updT_nomatch
        intro d hd heq
        rw [hcid, Option.some_inj] at heq
        exact h0 (heq ▸ hd)
      show outerT rest (applyGroupT g0 t) = _
      rw [h1]
      have hg' : g ∈ rest := by
        rcases List.mem_cons.1 hg with he | hg'
        · exact absurd (he ▸ hdg) h0
        · exact hg'
      exact ih
        (fun a ha b hb => hkeep a (List.mem_cons_of_mem g0 ha) b
          (List.mem_cons_of_mem g0 hb))
        (fun a ha b hb => hsame a (List.mem_cons_of_mem g0 ha) b
          (List.mem_cons_of_mem g0 hb))
        t cid g hg' hcid hdg

/-- With unique ids, the lookup by id finds the row with that id (up to the
key it carries). -/
lemma find_course_by_id (courses : List CourseRow)
    (hid : (courses.map (fun c => c.course_id)).Nodup)
    (cid : Nat) (c : CourseRow) (hc : c ∈ courses) (hcid : c.course_id = cid) :
    ∃ c₀, courses.find? (fun c => decide (c.course_id = cid)) = some c₀ ∧
      courseKeyOf c₀ = courseKeyOf c := by
  have hsome : (courses.find? (fun c => decide (c.course_id = cid))).isSome =
      true := List.find?_isSome.2 ⟨c, hc, by simp [hcid]⟩
  obtain ⟨c₀, h₀⟩ := Option.isSome_iff_exists.1 hsome
  have hc₀ : c₀ ∈ courses := List.mem_of_find?_eq_some h₀
  have hid₀ : c₀.course_id = cid := by simpa using List.find?_some h₀
  have heq : c₀ = c :=
    List.inj_on_of_nodup_map hid hc₀ hc (by rw [hid₀, hcid])
  exact ⟨c₀, h₀, by rw [heq]⟩

/-- `retargetTournament` on a NULL course reference. -/
lemma retargetTournament_none (courses : List CourseRow) (t : TournamentRow)
    (h : t.course_id = none) : retargetTournament courses t = t := by
  unfold retargetTournament
  rw [h]

/-- `retargetTournament` on a present course reference. -/
lemma retargetTournament_some (courses : List CourseRow) (t : TournamentRow)
    (cid : Nat) (h : t.course_id = some cid) :
    retargetTournament courses t =
      if deletedId courses cid then
        { t with course_id := some (keptIdFor courses cid) }
      else t := by
  unfold retargetTournament
  rw [h]

/-- The per-tournament effect of the whole fixing loop is exactly
`retargetTournament`. -/
lemma outerT_eq_retarget (courses : List CourseRow)
    (hid : (courses.map (fun c => c.course_id)).Nodup) (t : TournamentRow) :
    outerT (duplicateGroups courses) t = retargetTournament courses t := by
  cases hcid : t.course_id with
  | none =>
    have h1 : outerT (duplicateGroups courses) t = t :=
      outerT_nomatch _ t (fun g hg d hd => by
        rw [hcid]
        exact fun h => Option.noConfusion h)
    rw [h1, retargetTournament_none courses t hcid]
  | some cid =>
    by_cases hdel : deletedId courses cid = true
    · -- a deleted duplicate id: find its row and group
      unfold deletedId at hdel
      rw [List.any_eq_true] at hdel
      obtain ⟨c, hc, hcd⟩ := hdel
      rw [decide_eq_true_eq] at hcd
      obtain ⟨hcd1, hcd2⟩ := hcd
      have hmem : cid ∈ groupIds courses (courseKeyOf c) :=
        hcd1 ▸ self_mem_groupIds courses c hc
      have hlen : 1 < (groupIds courses (courseKeyOf c)).length := by
        by_contra hlen
        push_neg at hlen
        exact hcd2 ((minId_of_short _ hlen _ hmem).symm)
      have hkmem : courseKeyOf c ∈ dupKeys courses := by
        unfold dupKeys
        rw [List.mem_filter]
        exact ⟨(mem_dropDups _ _).2 (List.mem_map.2 ⟨c, hc, rfl⟩),
          by simpa using hlen⟩
      have hg : ({
          key := courseKeyOf c,
          keepId := minId (groupIds courses (courseKeyOf c)),
          allIds := groupIds courses (courseKeyOf c) } : DupGroup) ∈
            duplicateGroups courses := by
        unfold duplicateGroups
        exact List.mem_map.2 ⟨courseKeyOf c, hkmem, rfl⟩
      have hdg : cid ∈ ({
          key := courseKeyOf c,
          keepId := minId (groupIds courses (courseKeyOf c)),
          allIds := groupIds courses (courseKeyOf c) } : DupGroup).dups :=
        (mem_dups _ _).2 ⟨hmem, hcd2⟩
      have h1 := outerT_hit (duplicateGroups courses)
        (fun a ha b hb => keep_not_dup courses hid a b ha hb)
        (fun a ha b hb d hd hd' => shared_dup_keep_eq courses hid a b ha hb d hd hd')
        t cid _ hg hcid hdg
      rw [h1, retargetTournament_some courses t cid hcid]
      rw [if_pos (show deletedId courses cid = true by
        unfold deletedId
        rw [List.any_eq_true]
        exact ⟨c, hc, by simp [hcd1, hcd2]⟩)]
      have hkept : keptIdFor courses cid = minId (groupIds courses (courseKeyOf c)) := by
        unfold keptIdFor
        obtain ⟨c₀, h₀, hk₀⟩ := find_course_by_id courses hid cid c hc hcd1
        rw [h₀]
        show minId (groupIds courses (courseKeyOf c₀)) = _
        rw [hk₀]
      rw [hkept]
    · -- not a deleted id: nothing matches
      have h1 : outerT (duplicateGroups courses) t = t := by
        apply outerT_nomatch
        intro g hg d hd heq
        rw [hcid, Option.some_inj] at heq
        subst heq
        obtain ⟨hk, ha, -⟩ := duplicateGroups_spec courses g hg
        obtain ⟨hd1, hd2⟩ := (mem_dups g cid).1 hd
        rw [ha] at hd1
        obtain ⟨c, hc, hkey, hcid2⟩ := (mem_groupIds courses g.key cid).1 hd1
        apply hdel
        unfold deletedId
        rw [List.any_eq_true]
        refine ⟨c, hc, ?_⟩
        rw [decide_eq_true_eq]
        refine ⟨hcid2, ?_⟩
        rw [hkey, ← hk]
        exact hd2
      rw [h1, retargetTournament_some courses t cid hcid, if_neg hdel]

/-- The courses table after `fix_course_duplicates`: exactly the rows whose
id is the minimum of their `(course_name, location)` group survive. -/
lemma fix_courses_filter (db : Database)
    (hid : (db.courses.map (fun c => c.course_id)).Nodup) :
    (fixCourseDuplicates db).courses =
      db.courses.filter (fun c =>
        decide (c.course_id = minId (groupIds db.courses (courseKeyOf c)))) := by
  unfold fixCourseDuplicates
  rw [fix_decompose]
  show (duplicateGroups db.courses).foldl
    (fun cs g => cs.filter (fun c => decide (c.course_id ∉ g.dups)))
    db.courses = _
  rw [foldl_filter_all]
  apply List.filter_congr
  intro c hc
  rw [Bool.eq_iff_iff, List.all_eq_true, decide_eq_true_eq]
  have hs := survives_iff db.courses hid c hc
  constructor
  · intro h
    exact hs.1 (fun g hg => by
      have := h g hg
      rwa [decide_eq_true_eq] at this)
  · intro h g hg
    rw [decide_eq_true_eq]
    exact hs.2 h g hg

/-- The tournaments table after `fix_course_duplicates`: every row is
re-pointed by `retargetTournament`, and nothing else changes. -/
lemma fix_tournaments_map (db : Database)
    (hid : (db.courses.map (fun c => c.course_id)).Nodup) :
    (fixCourseDuplicates db).tournaments =
      db.tournaments.map (retargetTournament db.courses) := by
  unfold fixCourseDuplicates
  rw [fix_decompose]
  show (duplicateGroups db.courses).foldl
    (fun ts g => g.dups.foldl
      (fun ts d => updateTournamentsCourse g.keepId d ts) ts)
    db.tournaments = _
  rw [foldl_group_update_map]
  exact List.map_congr_left (fun t _ => outerT_eq_retarget db.courses hid t)

/-- The kept id a deleted duplicate is re-pointed to is itself never a
deleted id. -/
lemma kept_not_deleted (courses : List CourseRow)
    (hid : (courses.map (fun c => c.course_id)).Nodup)
    (cid₀ : Nat) (h : deletedId courses cid₀ = true) :
    deletedId courses (keptIdFor courses cid₀) = false := by
  unfold deletedId at h
  rw [List.any_eq_true] at h
  obtain ⟨c, hc, hcd⟩ := h
  rw [decide_eq_true_eq] at hcd
  obtain ⟨hc1, hc2⟩ := hcd
  obtain ⟨c₀, h₀, hk₀⟩ := find_course_by_id courses hid cid₀ c hc hc1
  have hkept : keptIdFor courses cid₀ =
      minId (groupIds courses (courseKeyOf c)) := by
    unfold keptIdFor
    rw [h₀]
    show minId (groupIds courses (courseKeyOf c₀)) = _
    rw [hk₀]
  rw [hkept]
  cases hd : deletedId courses (minId (groupIds courses (courseKeyOf c))) with
  | false => rfl
  | true =>
    exfalso
    unfold deletedId at hd
    rw [List.any_eq_true] at hd
    obtain ⟨c1, hc1m, hcd1⟩ := hd
    rw [decide_eq_true_eq] at hcd1
    obtain ⟨he1, he2⟩ := hcd1
    have hne : groupIds courses (courseKeyOf c) ≠ [] := by
      intro hnil
      have hm := self_mem_groupIds courses c hc
      rw [hnil] at hm
      cases hm
    have hminmem : minId (groupIds courses (courseKeyOf c)) ∈
        groupIds courses (courseKeyOf c) := minId_mem _ hne
    obtain ⟨c2, hc2m, hk2, hid2⟩ :=
      (mem_groupIds courses (courseKeyOf c) _).1 hminmem
    have hce : c1 = c2 :=
      List.inj_on_of_nodup_map hid hc1m hc2m (by rw [he1, hid2])
    exact he2 (by rw [hce, hk2])

/-- After the fix, no tournament references a deleted course id. -/
lemma fix_no_dangling (db : Database)
    (hid : (db.courses.map (fun c => c.course_id)).Nodup) :
    ∀ t ∈ (fixCourseDuplicates db).tournaments, ∀ cid,
      t.course_id = some cid → deletedId db.courses cid = false := by
  intro t ht cid hcid
  rw [fix_tournaments_map db hid] at ht
  obtain ⟨t₀, ht₀, hmap⟩ := List.mem_map.1 ht
  by_contra hne
  have hdel : deletedId db.courses cid = true := by
    revert hne
    cases deletedId db.courses cid <;> simp
  cases hcid₀ : t₀.course_id with
  | none =>
    rw [retargetTournament_none db.courses t₀ hcid₀] at hmap
    rw [hmap, hcid] at hcid₀
    exact Option.noConfusion hcid₀
  | some cid₀ =>
    rw [retargetTournament_some db.courses t₀ cid₀ hcid₀] at hmap
    by_cases hdel₀ : deletedId db.courses cid₀ = true
    · rw [if_pos hdel₀] at hmap
      have hval : t.course_id = some (keptIdFor db.courses cid₀) := by
        rw [← hmap]
      rw [hcid, Option.some_inj] at hval
      rw [hval] at hdel
      rw [kept_not_deleted db.courses hid cid₀ hdel₀] at hdel
      exact Bool.noConfusion hdel
    · rw [if_neg hdel₀] at hmap
      rw [hmap, hcid, Option.some_inj] at hcid₀
      rw [← hcid₀] at hdel₀
      exact hdel₀ hdel

/-- C3: the duplicate-course cleanup merges each `(course_name, location)`
group and re-points foreign keys: after `fix_course_duplicates` exactly the
row with the minimum `course_id` of each group remains (the others are
deleted); each tournament is re-pointed by `retargetTournament` — its
`course_id` becomes the kept minimum of the deleted course's group when it
referenced a deleted id, and is untouched otherwise — so no tournament
references a deleted course.  Course ids are assumed pairwise distinct
(`course_id` is the primary key). -/
theorem c3_fix_course_duplicates_merges (db : Database)
    (hid : (db.courses.map (fun c => c.course_id)).Nodup) :
    (fixCourseDuplicates db).courses =
      db.courses.filter (fun c =>
        decide (c.course_id = minId (groupIds db.courses (courseKeyOf c)))) ∧
    (fixCourseDuplicates db).tournaments =
      db.tournaments.map (retargetTournament db.courses) ∧
    ∀ t ∈ (fixCourseDuplicates db).tournaments, ∀ cid,
      t.course_id = some cid → deletedId db.courses cid = false :=
  ⟨fix_courses_filter db hid, fix_tournaments_map db hid,
    fix_no_dangling db hid⟩

/-- A database with a duplicated course group (ids 1 and 2 share the key
("X", "L")) and tournaments referencing both a duplicate and a unique
course. -/
def dbC : Database :=
  { emptyDb with
    courses := [
      { course_id := 1, course_name := "X", location := some "L",
        total_par := none },
      { course_id := 2, course_name := "X", location := some "L",
        total_par := none },
      { course_id := 3, course_name := "Y", location := some "M",
        total_par := none }],
    tournaments := [
      { tournament_id := 1, external_tournament_id := "1",
        tournament_name := "T1", course_id := some 2, tournament_date := none,
        purse_millions := none, season := none, has_cut := some true },
      { tournament_id := 2, external_tournament_id := "2",
        tournament_name := "T2", course_id := some 3, tournament_date := none,
        purse_millions := none, season := none, has_cut := some true }] }

/-- Witness for C3 at a concrete database. -/
theorem c3_witness :
    (fixCourseDuplicates dbC).courses =
      dbC.courses.filter (fun c =>
        decide (c.course_id = minId (groupIds dbC.courses (courseKeyOf c)))) ∧
    (fixCourseDuplicates dbC).tournaments =
      dbC.tournaments.map (retargetTournament dbC.courses) ∧
    ∀ t ∈ (fixCourseDuplicates dbC).tournaments, ∀ cid,
      t.course_id = some cid → deletedId dbC.courses cid = false :=
  c3_fix_course_duplicates_merges dbC (by decide)

/-- C4: course-name uniqueness is established by the deduplication script,
not by a schema constraint: after a successful `fix_course_duplicates` run no
two `courses_enhanced` rows share the same `(course_name, location)` pair,
while the table schema declares neither `unique=True` nor a primary key on
`course_name`.  Course ids are assumed pairwise distinct (primary key). -/
theorem c4_uniqueness_from_script_not_schema (db : Database)
    (hid : (db.courses.map (fun c => c.course_id)).Nodup) :
    ((fixCourseDuplicates db).courses.map courseKeyOf).Nodup ∧
    ∀ col ∈ coursesEnhancedSchema, col.name = "course_name" →
      col.unique = false ∧ col.primaryKey = false := by
  constructor
  · rw [fix_courses_filter db hid]
    have hsub : (db.courses.filter (fun c =>
        decide (c.course_id = minId (groupIds db.courses (courseKeyOf c))))).Sublist
          db.courses := List.filter_sublist _
    have hidl : ((db.courses.filter (fun c =>
        decide (c.course_id = minId (groupIds db.courses (courseKeyOf c))))).map
          (fun c => c.course_id)).Nodup :=
      List.Nodup.sublist (hsub.map _) hid
    apply List.Nodup.map_on _ (List.Nodup.of_map _ hidl)
    intro x hx y hy hkey
    have hx' := List.mem_filter.1 hx
    have hy' := List.mem_filter.1 hy
    have hxmin := hx'.2
    have hymin := hy'.2
    rw [decide_eq_true_eq] at hxmin hymin
    exact List.inj_on_of_nodup_map hid hx'.1 hy'.1
      (by rw [hxmin, hymin, hkey])
  · decide

/-- Witness for C4 at a concrete database. -/
theorem c4_witness :
    ((fixCourseDuplicates dbC).courses.map courseKeyOf).Nodup ∧
    ∀ col ∈ coursesEnhancedSchema, col.name = "course_name" →
      col.unique = false ∧ col.primaryKey = false :=
  c4_uniqueness_from_script_not_schema dbC (by decide)

/-- Folding one group's UPDATE statements over the database touches only the
tournaments table. -/
lemma exec_updates (keep : Nat) (ds : List Nat) :
    ∀ db : Database,
    (ds.map (fun d => FixStmt.updateT keep d)).foldl execFixStmt db =
      { db with
        tournaments := ds.foldl
          (fun ts d => updateTournamentsCourse keep d ts) db.tournaments } := by
  induction ds with
  | nil => intro db; rfl
  | cons d rest ih =>
    intro db
    show (rest.map _).foldl execFixStmt (execFixStmt db (.updateT keep d)) = _
    rw [ih]
    rfl

/-- Executing one group's statements equals the group's combined effect. -/
lemma exec_groupStmts (g : DupGroup) :
    ∀ db : Database, (groupStmts g).foldl execFixStmt db = applyGroup db g := by
  intro db
  unfold groupStmts
  rw [List.foldl_append, exec_updates]
  rfl

/-- Executing the whole statement list equals the pure fixing function. -/
lemma fixStmts_run (db : Database) :
    (fixStmts db.courses).foldl execFixStmt db = fixCourseDuplicates db := by
  have hgen : ∀ (gs : List DupGroup) (db : Database),
      (gs.flatMap groupStmts).foldl execFixStmt db = gs.foldl applyGroup db := by
    intro gs
    induction gs with
    | nil => intro db; rfl
    | cons g rest ih =>
      intro db
      rw [List.flatMap_cons, List.foldl_append, exec_groupStmts]
      exact ih (applyGroup db g)
  exact hgen (duplicateGroups db.courses) db

/-- C9: the duplicate-course fix is atomic.  All UPDATE and DELETE statements
of a run are followed by a single `conn.commit()`; an exception raised at
any write statement before that commit triggers the `except` handler's
`conn.rollback()`, leaving every row of `courses_enhanced` and
`tournaments_enhanced` exactly as before the call, and a run with no
exception before the commit produces exactly `fixCourseDuplicates`. -/
theorem c9_fix_atomic_single_commit (db : Database) (failAt : Option Nat) :
    runFixTransaction failAt db =
      match failAt with
      | some n =>
        if n < (fixStmts db.courses).length then db else fixCourseDuplicates db
      | none => fixCourseDuplicates db := by
  cases failAt with
  | none => exact fixStmts_run db
  | some n =>
    show (if n < (fixStmts db.courses).length then db
      else (fixStmts db.courses).foldl execFixStmt db) =
      (if n < (fixStmts db.courses).length then db else fixCourseDuplicates db)
    by_cases h : n < (fixStmts db.courses).length
    · rw [if_pos h, if_pos h]
    · rw [if_neg h, if_neg h]
      exact fixStmts_run db
